import Mathlib

/-!
Verification of the game-state engine of the tug_of_orb repository.

The definitions below are a shallow embedding of the Rust sources:
`src/game/mod.rs` (Game, ColorCounts, fill, execute_turn),
`src/game/position.rs` (Position), `src/game/direction.rs` (Direction),
`game/src/game/node.rs` (Node), `game/src/game/grid.rs` (Grid),
`game/src/random.rs` (Pcg32Fast).
Machine integers are modelled as `Nat` with explicit truncation where the
Rust code wraps; fallible/panicking code paths are modelled with explicit
result markers.
-/

namespace TugOfOrb

/-- Player colors, from `Color` in `src/game/mod.rs`. -/
inductive Color where
  | Red
  | Blue
  | Yellow
  | Green
deriving DecidableEq, Repr

instance : Fintype Color :=
  ⟨⟨{Color.Red, Color.Blue, Color.Yellow, Color.Green}, by decide⟩, by
    intro c; cases c <;> decide⟩

/-- Compass directions, from `Direction` in `src/game/direction.rs`. -/
inductive Direction where
  | Left
  | Up
  | Right
  | Down
deriving DecidableEq, Repr

namespace Direction

/-- `Direction::rotate` (`src/game/direction.rs`): one 90-degree step
Left→Up→Right→Down→Left.  The Rust method mutates in place; here it returns
the new direction. -/
def rotate : Direction → Direction
  | .Left => .Up
  | .Up => .Right
  | .Right => .Down
  | .Down => .Left

/-- `Direction::opposite` (`src/game/direction.rs`). -/
def opposite : Direction → Direction
  | .Left => .Right
  | .Up => .Down
  | .Right => .Left
  | .Down => .Up

/-- Modelled from the spec: `Direction::clockwise` is called by
`Grid::populate_reflected_arrows` but its definition is not among the
provided sources.  The spec fixes the clockwise cycle Left→Up→Right→Down→Left
(the same step as `rotate`). -/
def clockwise : Direction → Direction
  | .Left => .Up
  | .Up => .Right
  | .Right => .Down
  | .Down => .Left

/-- Modelled from the spec: `Direction::counter_clockwise` is called by
`Grid::populate_reflected_arrows` but its definition is not among the
provided sources.  It is the inverse step of `clockwise`. -/
def counter_clockwise : Direction → Direction
  | .Left => .Down
  | .Up => .Left
  | .Right => .Up
  | .Down => .Right

end Direction

/-- Board coordinate, from `Position` in `src/game/position.rs`.
`x` and `y` are Rust `u8` values, so they range over 0..=255. -/
structure Position where
  x : Nat
  y : Nat
deriving DecidableEq, Repr

namespace Position

/-- `Position::move` (`src/game/position.rs`).  Steps one cell in the given
direction, returning `none` when the result is not representable as a `u8`
pair: `x > 0` for Left, `y > 0` for Up, `x < u8::MAX` (255) for Right and
`y < u8::MAX` for Down.  Note the bound is the `u8` range, not the 16×16
board. -/
def move (p : Position) (d : Direction) : Option Position :=
  match d with
  | .Left => if p.x > 0 then some ⟨p.x - 1, p.y⟩ else none
  | .Up => if p.y > 0 then some ⟨p.x, p.y - 1⟩ else none
  | .Right => if p.x < 255 then some ⟨p.x + 1, p.y⟩ else none
  | .Down => if p.y < 255 then some ⟨p.x, p.y + 1⟩ else none

/-- The coordinates adjacent to `p` in direction `d` (the value `move`
returns when it does not return `none`). -/
def step (p : Position) (d : Direction) : Position :=
  match d with
  | .Left => ⟨p.x - 1, p.y⟩
  | .Up => ⟨p.x, p.y - 1⟩
  | .Right => ⟨p.x + 1, p.y⟩
  | .Down => ⟨p.x, p.y + 1⟩

end Position

/-- Board cell, from `Node` in `game/src/game/node.rs`. -/
inductive Node where
  | Empty
  | Wall
  | Arrow (alignment : Option Color) (direction : Direction)
  | AllDirection (alignment : Option Color)
  | SuperArrow (alignment : Option Color) (direction : Direction)
deriving DecidableEq, Repr

namespace Node

/-- `Node::color` (`game/src/game/node.rs`). -/
def color : Node → Option Color
  | .Arrow a _ => a
  | .AllDirection a => a
  | .SuperArrow a _ => a
  | _ => none

/-- `Node::is_color` (`game/src/game/node.rs`). -/
def isColor (n : Node) (c : Color) : Bool :=
  match n with
  | .Arrow a _ => a = some c
  | .AllDirection a => a = some c
  | .SuperArrow a _ => a = some c
  | _ => false

/-- `Node::rotate` (`game/src/game/node.rs`): rotates the direction of an
`Arrow` or `SuperArrow`, no-op for the other variants. -/
def rotate : Node → Node
  | .Arrow a d => .Arrow a d.rotate
  | .SuperArrow a d => .SuperArrow a d.rotate
  | n => n

/-- `Node::set_direction` (`game/src/game/node.rs`). -/
def setDirection (n : Node) (nd : Direction) : Node :=
  match n with
  | .Arrow a _ => .Arrow a nd
  | .SuperArrow a _ => .SuperArrow a nd
  | n => n

/-- `Node::direction` (`game/src/game/node.rs`): `some` for `Arrow` and
`SuperArrow`. -/
def direction : Node → Option Direction
  | .Arrow _ d => some d
  | .SuperArrow _ d => some d
  | _ => none

/-- `Node::all_directions` (`game/src/game/node.rs`). -/
def allDirections : Node → Bool
  | .AllDirection _ => true
  | _ => false

/-- `Node::set_color` (`game/src/game/node.rs`).  Returns whether the color
was set together with the (possibly) updated node; `false` is returned when
the alignment was already `color` or the node carries no alignment. -/
def setColor (n : Node) (c : Color) : Bool × Node :=
  match n with
  | .Arrow a d => if a = some c then (false, .Arrow a d) else (true, .Arrow (some c) d)
  | .AllDirection a => if a = some c then (false, .AllDirection a) else (true, .AllDirection (some c))
  | .SuperArrow a d => if a = some c then (false, .SuperArrow a d) else (true, .SuperArrow (some c) d)
  | n => (false, n)

/-- `Node::is_hidden` (`game/src/game/node.rs`): unaligned `AllDirection`
and `SuperArrow` nodes are hidden. -/
def isHidden : Node → Bool
  | .AllDirection a => a.isNone
  | .SuperArrow a _ => a.isNone
  | _ => false

/-- `Node::is_wall` (`game/src/game/node.rs`). -/
def isWall : Node → Bool
  | .Wall => true
  | _ => false

end Node

/-! ## The PRNG (`Pcg32Fast`, `game/src/random.rs`)

The 64-bit state is a `Nat` kept below `2 ^ 64`; wrapping arithmetic is
modelled with explicit `% 2 ^ 64`. -/

/-- The default `MULTIPLIER` const generic of `Pcg32Fast`. -/
def pcgMultiplier : Nat := 0xf13283ad

/-- `Pcg32Fast::new` (`game/src/random.rs`): state is `seed * 2 + 1`
(wrapping), forcing it odd. -/
def pcgNew (seed : Nat) : Nat := (seed * 2 + 1) % 2 ^ 64

/-- `Pcg32Fast::next_u32` (`game/src/random.rs`): returns the 32-bit output
and the updated state.  `count` is taken from the state before the
multiplication. -/
def pcgNextU32 (state : Nat) : Nat × Nat :=
  let count := state >>> 61
  let s1 := (state * pcgMultiplier) % 2 ^ 64
  let s2 := s1 ^^^ (s1 >>> 22)
  ((s2 >>> (22 + count)) % 2 ^ 32, s2)

/-- The `rand` crate derives `u8` sampling from `next_u32` by truncation to
the low byte; this is what `pcg.gen::<u8>()` in `Grid::generate` and
`Grid::populate_wall` computes. -/
def pcgGenU8 (state : Nat) : Nat × Nat :=
  let r := pcgNextU32 state
  (r.1 % 2 ^ 8, r.2)

/-- The first `n` outputs of `next_u32` starting from the given state. -/
def pcgOutputs : Nat → Nat → List Nat
  | 0, _ => []
  | n + 1, state =>
    let r := pcgNextU32 state
    r.1 :: pcgOutputs n r.2

/-! ## The grid (`Grid`, `game/src/game/grid.rs`)

`Grid` wraps a `[[Node; 16]; 16]` indexed `self.0[y][x]` (row major); the
embedding uses a function `Fin 16 → Fin 16 → Node`, first index the row. -/

/-- Pointwise update of a two-dimensional table, the model of an assignment
`table[i][j] = b`. -/
def upd2 {α : Type} (g : Fin 16 → Fin 16 → α) (i j : Fin 16) (b : α) :
    Fin 16 → Fin 16 → α :=
  Function.update g i (Function.update (g i) j b)

/-- The board: `Grid` in `game/src/game/grid.rs`. -/
def Grid : Type := Fin 16 → Fin 16 → Node

namespace Grid

/-- `Grid::get` (`game/src/game/grid.rs`): `self.0.get(y)?.get(x)`. -/
def get (g : Grid) (p : Position) : Option Node :=
  if h : p.y < 16 ∧ p.x < 16 then some (g ⟨p.y, h.1⟩ ⟨p.x, h.2⟩) else none

/-- The mutation performed through `Grid::get_mut` at an in-bounds cell:
write `n` at row `i`, column `j`. -/
def setCell (g : Grid) (i j : Fin 16) (n : Node) : Grid := upd2 g i j n

/-- Write `self.0[r][c] = n` for `Nat` indices; the callers in
`Grid::generate` always pass indices below 16, so the out-of-range branch
is never taken. -/
def gset (g : Grid) (r c : Nat) (n : Node) : Grid :=
  if h : r < 16 ∧ c < 16 then setCell g ⟨r, h.1⟩ ⟨c, h.2⟩ n else g

/-- Read `self.0[r][c]` for `Nat` indices (defaulting to `Empty` out of
range; only used at in-range indices). -/
def gread (g : Grid) (r c : Nat) : Node :=
  if h : r < 16 ∧ c < 16 then g ⟨r, h.1⟩ ⟨c, h.2⟩ else .Empty

end Grid

/-- Number of cells of row `row` whose node's alignment is `some c`. -/
def rowCount (row : Fin 16 → Node) (c : Color) : Nat :=
  ∑ j : Fin 16, if (row j).color = some c then 1 else 0

/-- Number of grid cells whose node's alignment is `some c`; this is what
the loop of `Grid::color_counts` (`game/src/game/grid.rs`) accumulates. -/
def countColor (g : Grid) (c : Color) : Nat :=
  ∑ i : Fin 16, rowCount (g i) c

/-- `ColorCounts` (`src/game/mod.rs`): four `Option<NonZeroU16>` counters.
`some v` models a stored `NonZeroU16` of value `v`. -/
structure ColorCounts where
  red : Option Nat
  blue : Option Nat
  yellow : Option Nat
  green : Option Nat
deriving DecidableEq, Repr

namespace ColorCounts

/-- The field of `ColorCounts` selected by a `Color`. -/
def getf (cc : ColorCounts) : Color → Option Nat
  | .Red => cc.red
  | .Blue => cc.blue
  | .Yellow => cc.yellow
  | .Green => cc.green

/-- Replace the field of `ColorCounts` selected by a `Color`. -/
def setf (cc : ColorCounts) : Color → Option Nat → ColorCounts
  | .Red, v => { cc with red := v }
  | .Blue, v => { cc with blue := v }
  | .Yellow, v => { cc with yellow := v }
  | .Green, v => { cc with green := v }

/-- `ColorCounts::change` (`src/game/mod.rs`).  The Rust code spells the
increment and decrement out per color; `getf`/`setf` factor that repetition.
`none` models a panic: the `expect` on `checked_add` overflow (the stored
`u16` is 65535) or the `expect` on decrementing an absent counter.
Decrementing a counter of value 1 stores `None` (`NonZeroU16::new(0)`). -/
def change (cc : ColorCounts) (increment : Color) (decrement : Option Color) :
    Option ColorCounts :=
  let inc :=
    match cc.getf increment with
    | some v => if v + 1 ≤ 65535 then some (cc.setf increment (some (v + 1))) else none
    | none => some (cc.setf increment (some 1))
  match inc with
  | none => none
  | some cc₁ =>
    match decrement with
    | none => some cc₁
    | some c =>
      match cc₁.getf c with
      | none => none
      | some v => some (cc₁.setf c (if v - 1 = 0 then none else some (v - 1)))

end ColorCounts

/-- `u16::try_into::<NonZeroU16>().ok()`: `none` exactly at zero (the counts
accumulated over the 256-cell grid never exceed 256, so the `u16` cannot
wrap). -/
def natToCount (n : Nat) : Option Nat := if n = 0 then none else some n

/-- `Grid::color_counts` (`game/src/game/grid.rs`). -/
def Grid.colorCounts (g : Grid) : ColorCounts :=
  ⟨natToCount (countColor g .Red), natToCount (countColor g .Blue),
   natToCount (countColor g .Yellow), natToCount (countColor g .Green)⟩

/-- `Turn` (`src/game/turn.rs`). -/
structure Turn where
  rotate : Position
deriving Repr

/-- The game state: `Game` in `src/game/mod.rs`. -/
structure Game where
  turn_color : Color
  color_counts : ColorCounts
  grid : Grid

/-- `Builder::build` (`src/game/mod.rs`): the counts are recomputed from the
supplied grid. -/
def Game.build (turn_color : Color) (grid : Grid) : Game :=
  ⟨turn_color, grid.colorCounts, grid⟩

/-! ## Fill propagation (`Game::fill`, `src/game/mod.rs`)

`fill` takes `&mut self` and a `&mut [[bool; 16]; 16]` visited array; the
embedding threads the mutable state explicitly and uses a fuel parameter
for the recursion (the Rust recursion depth is bounded by the visited
array, proved below). -/

/-- The mutable state threaded through `fill`: the grid and counters of the
`Game` plus the visited array. -/
structure FillSt where
  grid : Grid
  counts : ColorCounts
  visited : Fin 16 → Fin 16 → Bool

/-- Outcome of a `fill` call: `fuel` marks fuel exhaustion of the embedding
(never reached with fuel 257), `panicked` an `expect` failure inside
`ColorCounts::change`, `ok` a normal return with the updated state. -/
inductive FillRes where
  | fuel
  | panicked
  | ok (s : FillSt)

/-- Sequence a `fill` result into a continuation, propagating fuel
exhaustion and panics. -/
def bindRes : FillRes → (FillSt → FillRes) → FillRes
  | .fuel, _ => .fuel
  | .panicked, _ => .panicked
  | .ok s, f => f s

/-- Outcome of the first part of the `fill` body (bounds test, visited
test, recoloring, count update): `ret` is an early `return`, `panicStep`
a panic inside `ColorCounts::change`, `go` continues into the recursion
part carrying the node value after `set_color`. -/
inductive CoreRes where
  | ret (s : FillSt)
  | panicStep
  | go (s : FillSt) (node : Node)

/-- The first part of the body of `Game::fill` (`src/game/mod.rs`): return
if the position is out of bounds (`grid.get_mut` fails) or already visited;
otherwise mark it visited, try `set_color(turn_color)` and update the
counts on a change, returning early when the node is uncolorable and not
of the mover's color (a wall or empty cell). -/
def coreStep (tc : Color) (s : FillSt) (p : Position) : CoreRes :=
  if h : p.y < 16 ∧ p.x < 16 then
    let i : Fin 16 := ⟨p.y, h.1⟩
    let j : Fin 16 := ⟨p.x, h.2⟩
    if s.visited i j then .ret s
    else
      let node := s.grid i j
      let s₁ : FillSt := { s with visited := upd2 s.visited i j true }
      let r := node.setColor tc
      if r.1 then
        let s₂ : FillSt := { s₁ with grid := s₁.grid.setCell i j r.2 }
        match s₂.counts.change tc node.color with
        | none => .panicStep
        | some cc => .go { s₂ with counts := cc } r.2
      else if ¬ node.isColor tc then .ret s₁
      else .go s₁ r.2
  else .ret s

/-- The list of positions the node at `p` propagates into (the "deal with
the node this node points to" part of `fill`): nothing for a hidden node;
the pointed-to cell for a node with a direction; all four neighbors for an
`AllDirection` node, in the order Left, Up, Right, Down. -/
def outTargets (node : Node) (p : Position) : List Position :=
  if node.isHidden then []
  else
    match node.direction with
    | some d => (p.move d).toList
    | none =>
      if node.allDirections then
        [Direction.Left, Direction.Up, Direction.Right, Direction.Down].filterMap p.move
      else []

/-- Run the recursion `rec` on each position of the list in order,
threading the state. -/
def seqFill (rec : FillSt → Position → FillRes) : List Position → FillSt → FillRes
  | [], s => .ok s
  | q :: qs, s => bindRes (rec s q) (seqFill rec qs)

/-- The "deal with the nodes pointing to this node" loop of `fill`: for
each direction, if the neighbor exists and is a non-hidden node whose
direction points back at `p` or an `AllDirection` node, recurse into it.
The neighbor is read from the current grid state. -/
def seqIncoming (rec : FillSt → Position → FillRes) (p : Position) :
    List Direction → FillSt → FillRes
  | [], s => .ok s
  | d :: ds, s =>
    match p.move d with
    | none => seqIncoming rec p ds s
    | some q =>
      match Grid.get s.grid q with
      | none => seqIncoming rec p ds s
      | some nn =>
        if ¬ nn.isHidden ∧ (nn.direction = some d.opposite ∨ nn.allDirections) then
          bindRes (rec s q) (seqIncoming rec p ds)
        else seqIncoming rec p ds s

/-- `Game::fill` (`src/game/mod.rs`) with explicit fuel bounding the
recursion depth. -/
def fillF : Nat → Color → FillSt → Position → FillRes
  | 0, _, _, _ => .fuel
  | fuel + 1, tc, s, p =>
    match coreStep tc s p with
    | .ret s' => .ok s'
    | .panicStep => .panicked
    | .go s' node =>
      bindRes (seqFill (fun s q => fillF fuel tc s q) (outTargets node p) s')
        (seqIncoming (fun s q => fillF fuel tc s q) p
          [Direction.Left, Direction.Up, Direction.Right, Direction.Down])

/-! ## Turn execution (`Game::execute_turn`, `src/game/mod.rs`) -/

/-- Outcome of the SuperArrow beam walk: `panicked` models the
`grid.get_mut(new_pos).unwrap()` panic on an out-of-board position, `fuel`
marks fuel exhaustion of the embedding (never reached with fuel 256). -/
inductive BeamRes where
  | fuel
  | panicked
  | ok (g : Grid)

/-- Upper bound on the number of iterations the beam walk starting at `p`
can perform before stopping or panicking (at most 17 from an in-board
start). -/
def beamMeasure (d : Direction) (p : Position) : Nat :=
  match d with
  | .Left => p.x + 1
  | .Up => p.y + 1
  | .Right => 17 - p.x
  | .Down => 17 - p.y

/-- The SuperArrow beam loop of `execute_turn` (`src/game/mod.rs`): walk
from `p` in direction `d`; while `move` yields a next position, read it
with `grid.get_mut(new_pos).unwrap()` — `panicked` models the `unwrap`
panic when the position is outside the 16×16 board — stop at a wall,
otherwise force the cell's direction and continue.  The `hq` test merely
re-extracts the bounds that the successful `get` guarantees; its `else`
branch is unreachable. -/
def beamF : Nat → Grid → Direction → Position → BeamRes
  | 0, _, _, _ => .fuel
  | fuel + 1, g, d, p =>
    match p.move d with
    | none => .ok g
    | some q =>
      match Grid.get g q with
      | none => .panicked
      | some node =>
        if node.isWall then .ok g
        else
          if hq : q.y < 16 ∧ q.x < 16 then
            beamF fuel (g.setCell ⟨q.y, hq.1⟩ ⟨q.x, hq.2⟩ (node.setDirection d)) d q
          else .panicked

/-- `Game::increment_turn` (`src/game/mod.rs`): advance `turn_color` to the
next surviving color in the cyclic order Red→Blue→Yellow→Green; leave it
unchanged when no other color survives. -/
def incrementTurn (tc : Color) (cc : ColorCounts) : Color :=
  match tc with
  | .Red =>
    if cc.blue.isSome then .Blue
    else if cc.yellow.isSome then .Yellow
    else if cc.green.isSome then .Green
    else .Red
  | .Blue =>
    if cc.yellow.isSome then .Yellow
    else if cc.green.isSome then .Green
    else if cc.red.isSome then .Red
    else .Blue
  | .Yellow =>
    if cc.green.isSome then .Green
    else if cc.red.isSome then .Red
    else if cc.blue.isSome then .Blue
    else .Yellow
  | .Green =>
    if cc.red.isSome then .Red
    else if cc.blue.isSome then .Blue
    else if cc.yellow.isSome then .Yellow
    else .Green

/-- The winner computation at the end of `execute_turn`: `some c` when
exactly the counter of `c` is non-empty. -/
def winner (cc : ColorCounts) : Option Color :=
  match cc.red.isSome, cc.blue.isSome, cc.yellow.isSome, cc.green.isSome with
  | true, false, false, false => some .Red
  | false, true, false, false => some .Blue
  | false, false, true, false => some .Yellow
  | false, false, false, true => some .Green
  | _, _, _, _ => none

/-- Outcome of `execute_turn`: `err` is `Err(InvalidRotationPosition)`
carrying the (unmodified) game the caller retains, `panicked` an aborted
execution (the beam `unwrap` or a counter `expect`), `ok` the normal
result with the winner report. -/
inductive TurnResult where
  | err (g : Game)
  | panicked
  | ok (g : Game) (w : Option Color)

/-- `Game::execute_turn` (`src/game/mod.rs`).  The fill call uses fuel 257,
which is always sufficient (`fillF` starting from a fresh visited array
never exhausts 257 fuel, proved below), so the `.fuel` branch is dead. -/
def executeTurn (g : Game) (t : Turn) : TurnResult :=
  match Grid.get g.grid t.rotate with
  | none => .err g
  | some node =>
    if ¬ node.isColor g.turn_color then .err g
    else
      let node' := node.rotate
      let grid₁ :=
        if h : t.rotate.y < 16 ∧ t.rotate.x < 16 then
          g.grid.setCell ⟨t.rotate.y, h.1⟩ ⟨t.rotate.x, h.2⟩ node'
        else g.grid
      let beamed : BeamRes :=
        match node' with
        | .SuperArrow _ d => beamF 256 grid₁ d t.rotate
        | _ => .ok grid₁
      match beamed with
      | .fuel => .panicked
      | .panicked => .panicked
      | .ok grid₂ =>
        match fillF 257 g.turn_color ⟨grid₂, g.color_counts, fun _ _ => false⟩ t.rotate with
        | .fuel => .panicked
        | .panicked => .panicked
        | .ok s =>
          let cc := s.counts
          .ok ⟨incrementTurn g.turn_color cc, cc, s.grid⟩ (winner cc)

/-- `Game::weight` result: `ok` carries the `u8` reachability estimate and
the visited array; `panicked` marks the out-of-bounds indexing of the
visited array; `fuel` marks fuel exhaustion of the embedding. -/
inductive WRes where
  | fuel
  | panicked
  | ok (w : Nat) (visited : Fin 16 → Fin 16 → Bool)

/-- Sequence a weight result into a continuation. -/
def wbind : WRes → (Nat → (Fin 16 → Fin 16 → Bool) → WRes) → WRes
  | .fuel, _ => .fuel
  | .panicked, _ => .panicked
  | .ok w v, f => f w v

/-- `Grid::weight` (`game/src/game/grid.rs`) with explicit fuel.  Note the
faithful order of operations: the visited array is indexed (and would
panic out of bounds — the `panicked` result) before `self.get(position)`
is consulted, so the `None` arm of the `get` is unreachable.  Additions
are `u8` additions (wrapping, release profile). -/
def weightF : Nat → Grid → Position → (Fin 16 → Fin 16 → Bool) → WRes
  | 0, _, _, _ => .fuel
  | fuel + 1, g, p, v =>
    if h : p.y < 16 ∧ p.x < 16 then
      let i : Fin 16 := ⟨p.y, h.1⟩
      let j : Fin 16 := ⟨p.x, h.2⟩
      if v i j then .ok 0 v
      else
        let v₁ := upd2 v i j true
        match Grid.get g p with
        | some node =>
          if node.isHidden then .ok 0 v₁
          else
            match node.direction with
            | some d =>
              match p.move d with
              | some q => wbind (weightF fuel g q v₁) (fun w v' => .ok ((1 + w) % 256) v')
              | none => .ok 1 v₁
            | none =>
              if node.allDirections then
                let add := fun (d : Direction) (w : Nat) (v : Fin 16 → Fin 16 → Bool) =>
                  match p.move d with
                  | none => WRes.ok w v
                  | some q => wbind (weightF fuel g q v) (fun w' v' => .ok ((w + w') % 256) v')
                wbind (add .Left 1 v₁) fun w₁ v₂ =>
                  wbind (add .Up w₁ v₂) fun w₂ v₃ =>
                    wbind (add .Right w₂ v₃) fun w₃ v₄ => add .Down w₃ v₄
              else .ok 0 v₁
        | none => .ok 0 v₁
    else .panicked

/-- `Game::weight` (`src/game/mod.rs`): `self.grid.weight(position, &mut
[[false; 16]; 16])`, with fuel 300 (ample: the recursion is bounded by the
256 visited cells). -/
def Game.weight (g : Game) (p : Position) : WRes :=
  weightF 300 g.grid p (fun _ _ => false)

/-! ## Grid generation (`Grid::generate`, `game/src/game/grid.rs`) -/

/-- `Grid::populate_reflected_arrows` (`game/src/game/grid.rs`): writes the
arrow at `self.0[y][x]` and its rotated variants at `self.0[15-x][y]`,
`self.0[x][15-y]` and `self.0[15-y][15-x]`. -/
def populateReflectedArrows (g : Grid) (x y : Nat) (d : Direction) : Grid :=
  ((((g.gset y x (.Arrow none d)).gset (15 - x) y
      (.Arrow none d.counter_clockwise)).gset x (15 - y)
      (.Arrow none d.clockwise)).gset (15 - y) (15 - x)
      (.Arrow none d.opposite))

/-- `Grid::populate_wall` (`game/src/game/grid.rs`): draw a byte; 0..=63
yields an `AllDirection` node, 64..=127 a `SuperArrow` with a further
random direction, the rest a `Wall`.  (The Rust match arms `64..=127` and
`64..=255` overlap; the first matching arm wins, so the `Wall` arm
effectively covers 128..=255.) -/
def populateWall (g : Grid) (x y : Nat) (st : Nat) : Grid × Nat :=
  let r := pcgGenU8 st
  if r.1 ≤ 63 then (g.gset y x (.AllDirection none), r.2)
  else if r.1 ≤ 127 then
    let r₂ := pcgGenU8 r.2
    let d : Direction :=
      if r₂.1 ≤ 63 then .Left
      else if r₂.1 ≤ 127 then .Up
      else if r₂.1 ≤ 191 then .Right
      else .Down
    (g.gset y x (.SuperArrow none d), r₂.2)
  else (g.gset y x .Wall, r.2)

/-- The initial board of `Grid::generate`: all `Empty`, with the four
colored corner arrows. -/
def initGrid : Grid :=
  Grid.gset
    (Grid.gset
      (Grid.gset
        (Grid.gset (fun _ _ => Node.Empty) 0 0 (.Arrow (some .Red) .Up))
        0 15 (.Arrow (some .Blue) .Right))
      15 0 (.Arrow (some .Yellow) .Left))
    15 15 (.Arrow (some .Green) .Down)

/-- The iteration order of the generation loop: `for y in 0..8 { for x in
0..8 }`, skipping the seeded corner `(0, 0)`.  Pairs are `(x, y)`. -/
def quadCells : List (Nat × Nat) :=
  ((List.range 8).flatMap fun y => (List.range 8).map fun x => (x, y)).filter
    fun xy => !(xy.1 == 0 && xy.2 == 0)

/-- One iteration of the generation loop of `Grid::generate`
(`game/src/game/grid.rs`): classify a random byte into the weighted
buckets, with the edge special cases, and populate either reflected arrows
or the four wall/secret cells. -/
def genStep (acc : Grid × Nat) (xy : Nat × Nat) : Grid × Nat :=
  let x := xy.1
  let y := xy.2
  let g := acc.1
  let r := pcgGenU8 acc.2
  let b := r.1
  let st := r.2
  if b ≤ 60 then
    (populateReflectedArrows g x y (if x = 1 ∧ y = 0 then .Up else .Left), st)
  else if b ≤ 120 then
    (populateReflectedArrows g x y (if x = 0 ∧ y = 1 then .Left else .Up), st)
  else if b ≤ 180 then (populateReflectedArrows g x y .Right, st)
  else if b ≤ 240 then (populateReflectedArrows g x y .Down, st)
  else if x = 0 then (populateReflectedArrows g x y .Down, st)
  else if y = 0 then (populateReflectedArrows g x y .Right, st)
  else
    let w₁ := populateWall g x y st
    let w₂ := populateWall w₁.1 (15 - y) x w₁.2
    let w₃ := populateWall w₂.1 y (15 - x) w₂.2
    populateWall w₃.1 (15 - x) (15 - y) w₃.2

/-- Projection of the generation accumulator onto its grid. -/
def gridOf (p : Grid × Nat) : Grid :=
  p.1

/-- `Grid::generate` (`game/src/game/grid.rs`). -/
def Grid.generate (seed : Nat) : Grid :=
  gridOf (quadCells.foldl genStep (initGrid, pcgNew seed))

/-! ## Invariants and helper notions -/

/-- Number of unvisited cells of a visited array. -/
def uv (v : Fin 16 → Fin 16 → Bool) : Nat :=
  ∑ i : Fin 16, ∑ j : Fin 16, if v i j then 0 else 1

/-- Visited arrays only grow: every cell marked in `v` is marked in `w`. -/
def vle (v w : Fin 16 → Fin 16 → Bool) : Prop :=
  ∀ i j, v i j = true → w i j = true

/-- The count invariant of `Game` (`src/game/mod.rs`: "these counts must
invariantly match with the number of colors in `self.grid`"): each stored
counter equals the number of cells aligned to that color, absent exactly
when that number is zero. -/
def countsMatch (cc : ColorCounts) (g : Grid) : Prop :=
  ∀ c, cc.getf c = natToCount (countColor g c)

instance (cc : ColorCounts) (g : Grid) : Decidable (countsMatch cc g) :=
  inferInstanceAs (Decidable (∀ c, _))

/-! ### Update lemmas for two-dimensional tables -/

theorem upd2_same {α : Type} (g : Fin 16 → Fin 16 → α) (i j : Fin 16) (b : α) :
    upd2 g i j b i j = b := by
  simp [upd2]

theorem upd2_ne {α : Type} (g : Fin 16 → Fin 16 → α) (i j : Fin 16) (b : α)
    (i' j' : Fin 16) (h : ¬(i' = i ∧ j' = j)) : upd2 g i j b i' j' = g i' j' := by
  by_cases hi : i' = i
  · subst hi
    have hj : j' ≠ j := fun hj => h ⟨rfl, hj⟩
    simp [upd2, Function.update_apply, hj]
  · simp [upd2, Function.update_apply, hi]

theorem sum_update_add {α : Type} (G : α → Nat) (row : Fin 16 → α) (j : Fin 16) (b : α) :
    (∑ k : Fin 16, G (Function.update row j b k)) + G (row j)
      = (∑ k : Fin 16, G (row k)) + G b := by
  have e1 : ∀ k ∈ Finset.univ.erase j, G (Function.update row j b k) = G (row k) := by
    intro k hk
    simp [Function.update_apply, Finset.ne_of_mem_erase hk]
  have h1 : G (Function.update row j b j)
      + ∑ k ∈ Finset.univ.erase j, G (Function.update row j b k)
      = ∑ k : Fin 16, G (Function.update row j b k) :=
    Finset.add_sum_erase Finset.univ (fun k => G (Function.update row j b k))
      (Finset.mem_univ j)
  have h2 : G (row j) + ∑ k ∈ Finset.univ.erase j, G (row k)
      = ∑ k : Fin 16, G (row k) :=
    Finset.add_sum_erase Finset.univ (fun k => G (row k)) (Finset.mem_univ j)
  have h4 : ∑ k ∈ Finset.univ.erase j, G (Function.update row j b k)
      = ∑ k ∈ Finset.univ.erase j, G (row k) := Finset.sum_congr rfl e1
  have h5 : G (Function.update row j b j) = G b := by rw [Function.update_same]
  omega

theorem sum2_update_add {α : Type} (G : α → Nat) (g : Fin 16 → Fin 16 → α)
    (i j : Fin 16) (b : α) :
    (∑ i' : Fin 16, ∑ j' : Fin 16, G (upd2 g i j b i' j')) + G (g i j)
      = (∑ i' : Fin 16, ∑ j' : Fin 16, G (g i' j')) + G b := by
  have hA : (∑ j' : Fin 16, G (upd2 g i j b i j'))
      + ∑ i' ∈ Finset.univ.erase i, ∑ j' : Fin 16, G (upd2 g i j b i' j')
      = ∑ i' : Fin 16, ∑ j' : Fin 16, G (upd2 g i j b i' j') :=
    Finset.add_sum_erase _ (fun i' => ∑ j' : Fin 16, G (upd2 g i j b i' j'))
      (Finset.mem_univ i)
  have hB : (∑ j' : Fin 16, G (g i j'))
      + ∑ i' ∈ Finset.univ.erase i, ∑ j' : Fin 16, G (g i' j')
      = ∑ i' : Fin 16, ∑ j' : Fin 16, G (g i' j') :=
    Finset.add_sum_erase _ (fun i' => ∑ j' : Fin 16, G (g i' j')) (Finset.mem_univ i)
  have hC : ∑ i' ∈ Finset.univ.erase i, ∑ j' : Fin 16, G (upd2 g i j b i' j')
      = ∑ i' ∈ Finset.univ.erase i, ∑ j' : Fin 16, G (g i' j') := by
    refine Finset.sum_congr rfl fun i' hi' => Finset.sum_congr rfl fun j' _ => ?_
    have hne : i' ≠ i := Finset.ne_of_mem_erase hi'
    rw [upd2_ne g i j b i' j' (fun hc => hne hc.1)]
  have hD : ∑ j' : Fin 16, G (upd2 g i j b i j')
      = ∑ j' : Fin 16, G (Function.update (g i) j b j') := by
    refine Finset.sum_congr rfl fun j' _ => ?_
    simp [upd2]
  have hrow : (∑ k : Fin 16, G (Function.update (g i) j b k)) + G (g i j)
      = (∑ k : Fin 16, G (g i k)) + G b := sum_update_add G (g i) j b
  omega

/-! ### Count lemmas -/

theorem countColor_setCell (g : Grid) (i j : Fin 16) (n : Node) (c : Color) :
    countColor (Grid.setCell g i j n) c + (if (g i j).color = some c then 1 else 0)
      = countColor g c + (if n.color = some c then 1 else 0) := by
  simpa [countColor, rowCount, Grid.setCell] using
    sum2_update_add (fun nd : Node => if nd.color = some c then 1 else 0) g i j n

theorem countColor_le (g : Grid) (c : Color) : countColor g c ≤ 256 := by
  have h : countColor g c ≤ ∑ _i : Fin 16, ∑ _j : Fin 16, 1 := by
    refine Finset.sum_le_sum fun i _ => Finset.sum_le_sum fun j _ => ?_
    split <;> omega
  simpa using h

theorem countColor_pos (g : Grid) (i j : Fin 16) (c : Color)
    (h : (g i j).color = some c) : 1 ≤ countColor g c := by
  have hrow : 1 ≤ rowCount (g i) c := by
    have := Finset.single_le_sum
      (f := fun j' : Fin 16 => if ((g i j')).color = some c then 1 else 0)
      (fun _ _ => Nat.zero_le _) (Finset.mem_univ j)
    simpa [rowCount, h] using this
  have := Finset.single_le_sum (f := fun i' : Fin 16 => rowCount (g i') c)
    (fun _ _ => Nat.zero_le _) (Finset.mem_univ i)
  calc 1 ≤ rowCount (g i) c := hrow
    _ ≤ countColor g c := this

theorem uv_mark (v : Fin 16 → Fin 16 → Bool) (i j : Fin 16) (h : v i j = false) :
    uv (upd2 v i j true) + 1 = uv v := by
  have := sum2_update_add (fun b : Bool => if b then 0 else 1) v i j true
  simp only [h] at this
  simpa [uv] using this

theorem uv_pos (v : Fin 16 → Fin 16 → Bool) (i j : Fin 16) (h : v i j = false) :
    1 ≤ uv v := by
  have hrow : 1 ≤ ∑ j' : Fin 16, (if v i j' then 0 else 1) := by
    have := Finset.single_le_sum
      (f := fun j' : Fin 16 => if v i j' then 0 else 1)
      (fun _ _ => Nat.zero_le _) (Finset.mem_univ j)
    simpa [h] using this
  have := Finset.single_le_sum
    (f := fun i' : Fin 16 => ∑ j' : Fin 16, if v i' j' then 0 else 1)
    (fun _ _ => Nat.zero_le _) (Finset.mem_univ i)
  calc 1 ≤ ∑ j' : Fin 16, (if v i j' then 0 else 1) := hrow
    _ ≤ uv v := this

theorem uv_mono (v w : Fin 16 → Fin 16 → Bool) (h : vle v w) : uv w ≤ uv v := by
  refine Finset.sum_le_sum fun i _ => Finset.sum_le_sum fun j _ => ?_
  by_cases hv : v i j
  · simp [h i j hv, hv]
  · simp only [Bool.not_eq_true] at hv
    simp [hv]
    split <;> omega

theorem vle_refl (v : Fin 16 → Fin 16 → Bool) : vle v v := fun _ _ h => h

theorem vle_trans {u v w : Fin 16 → Fin 16 → Bool} (h1 : vle u v) (h2 : vle v w) :
    vle u w := fun i j h => h2 i j (h1 i j h)

theorem vle_mark (v : Fin 16 → Fin 16 → Bool) (i j : Fin 16) :
    vle v (upd2 v i j true) := by
  intro i' j' h
  by_cases hij : i' = i ∧ j' = j
  · obtain ⟨rfl, rfl⟩ := hij; rw [upd2_same]
  · rw [upd2_ne _ _ _ _ _ _ hij]; exact h

/-! ### `ColorCounts` field lemmas -/

theorem getf_setf_same (cc : ColorCounts) (c : Color) (v : Option Nat) :
    (cc.setf c v).getf c = v := by
  cases c <;> rfl

theorem getf_setf_ne (cc : ColorCounts) (c c' : Color) (v : Option Nat)
    (h : c' ≠ c) : (cc.setf c v).getf c' = cc.getf c' := by
  cases c <;> cases c' <;> first
    | rfl
    | exact absurd rfl h

/-! ### `Node` lemmas -/

theorem setColor_true (n : Node) (tc : Color) (n' : Node)
    (h : n.setColor tc = (true, n')) :
    n.color ≠ some tc ∧ n'.color = some tc := by
  cases n with
  | Empty => simp [Node.setColor] at h
  | Wall => simp [Node.setColor] at h
  | Arrow a d =>
    by_cases ha : a = some tc
    · simp [Node.setColor, ha] at h
    · simp only [Node.setColor, if_neg ha] at h
      injection h with h1 h2
      subst h2
      exact ⟨by simpa [Node.color] using ha, by simp [Node.color]⟩
  | AllDirection a =>
    by_cases ha : a = some tc
    · simp [Node.setColor, ha] at h
    · simp only [Node.setColor, if_neg ha] at h
      injection h with h1 h2
      subst h2
      exact ⟨by simpa [Node.color] using ha, by simp [Node.color]⟩
  | SuperArrow a d =>
    by_cases ha : a = some tc
    · simp [Node.setColor, ha] at h
    · simp only [Node.setColor, if_neg ha] at h
      injection h with h1 h2
      subst h2
      exact ⟨by simpa [Node.color] using ha, by simp [Node.color]⟩

theorem setColor_false (n : Node) (tc : Color) (n' : Node)
    (h : n.setColor tc = (false, n')) : n' = n := by
  cases n with
  | Empty => injection h with h1 h2; exact h2.symm
  | Wall => injection h with h1 h2; exact h2.symm
  | Arrow a d =>
    by_cases ha : a = some tc
    · simp only [Node.setColor, if_pos ha] at h
      injection h with h1 h2; exact h2.symm
    · simp [Node.setColor, if_neg ha] at h
  | AllDirection a =>
    by_cases ha : a = some tc
    · simp only [Node.setColor, if_pos ha] at h
      injection h with h1 h2; exact h2.symm
    · simp [Node.setColor, if_neg ha] at h
  | SuperArrow a d =>
    by_cases ha : a = some tc
    · simp only [Node.setColor, if_pos ha] at h
      injection h with h1 h2; exact h2.symm
    · simp [Node.setColor, if_neg ha] at h

theorem rotate_color (n : Node) : n.rotate.color = n.color := by
  cases n <;> rfl

theorem setDirection_color (n : Node) (d : Direction) :
    (n.setDirection d).color = n.color := by
  cases n <;> rfl

/-! ### `ColorCounts::change` preserves the count invariant -/

theorem natToCount_eq_none {n : Nat} : natToCount n = none ↔ n = 0 := by
  simp [natToCount]

theorem natToCount_eq_some {n v : Nat} (h : natToCount n = some v) : n = v ∧ n ≠ 0 := by
  by_cases h0 : n = 0 <;> simp [natToCount, h0] at h <;> simp_all

/-- Recoloring one cell to the mover's color: the `change` call of `fill`
never panics and re-establishes the count invariant against the updated
grid. -/
theorem change_set_ok (cc : ColorCounts) (g : Grid) (i j : Fin 16) (tc : Color)
    (n' : Node) (hm : countsMatch cc g) (hold : (g i j).color ≠ some tc)
    (hnew : n'.color = some tc) :
    ∃ cc', ColorCounts.change cc tc ((g i j).color) = some cc'
      ∧ countsMatch cc' (Grid.setCell g i j n') := by
  have htc : cc.getf tc = natToCount (countColor g tc) := hm tc
  have hle : countColor g tc ≤ 256 := countColor_le g tc
  have hinc1 : countColor g tc + 1 ≤ 65535 := by omega
  cases hgc : (g i j).color with
  | none =>
    refine ⟨cc.setf tc (some (countColor g tc + 1)), ?_, ?_⟩
    · simp only [ColorCounts.change, htc]
      by_cases h0 : countColor g tc = 0
      · simp [natToCount, h0]
      · simp [natToCount, h0, hinc1]
    · intro c
      have hadd := countColor_setCell g i j n' c
      by_cases hctc : c = tc
      · subst hctc
        simp only [hgc, hnew] at hadd
        simp only [reduceCtorEq, if_false, Option.some.injEq, if_true, if_pos rfl] at hadd
        have hCS : countColor (Grid.setCell g i j n') c = countColor g c + 1 := by
          omega
        rw [getf_setf_same, hCS]
        simp [natToCount]
      · simp only [hgc, hnew, Option.some.injEq] at hadd
        rw [if_neg (by simp), if_neg (fun h => hctc h.symm)] at hadd
        have hCS : countColor (Grid.setCell g i j n') c = countColor g c := by omega
        rw [getf_setf_ne cc tc c _ hctc, hCS]
        exact hm c
  | some c₀ =>
    have hc₀tc : c₀ ≠ tc := by
      intro h
      exact hold (by rw [hgc, h])
    have h1 : 1 ≤ countColor g c₀ := countColor_pos g i j c₀ hgc
    have hgc₀ : cc.getf c₀ = natToCount (countColor g c₀) := hm c₀
    have hsome₀ : cc.getf c₀ = some (countColor g c₀) := by
      rw [hgc₀]; simp [natToCount]; omega
    refine ⟨(cc.setf tc (some (countColor g tc + 1))).setf c₀
      (natToCount (countColor g c₀ - 1)), ?_, ?_⟩
    · simp only [ColorCounts.change, htc]
      have hg₀ : (cc.setf tc (some (countColor g tc + 1))).getf c₀
          = some (countColor g c₀) := by
        rw [getf_setf_ne cc tc c₀ _ hc₀tc, hsome₀]
      by_cases h0 : countColor g tc = 0
      · simp only [natToCount, if_pos h0]
        simp only [h0, Nat.zero_add] at hg₀ ⊢
        simp [hg₀, natToCount]
      · simp only [natToCount, if_neg h0, hinc1, if_pos hinc1]
        simp [hg₀, natToCount]
    · intro c
      have hadd := countColor_setCell g i j n' c
      by_cases hctc : c = tc
      · subst hctc
        simp [hgc, hnew, hc₀tc] at hadd
        have hCS : countColor (Grid.setCell g i j n') c = countColor g c + 1 := by
          omega
        rw [getf_setf_ne _ c₀ c _ (fun h => hc₀tc h.symm), getf_setf_same, hCS]
        simp [natToCount]
      · by_cases hcc₀ : c = c₀
        · subst hcc₀
          have htcne : tc ≠ c := fun h => hctc h.symm
          simp [hgc, hnew, htcne] at hadd
          have hCS : countColor (Grid.setCell g i j n') c = countColor g c - 1 := by
            omega
          rw [getf_setf_same, hCS]
        · have htcne : tc ≠ c := fun h => hctc h.symm
          have hc₀ne : c₀ ≠ c := fun h => hcc₀ h.symm
          simp [hgc, hnew, htcne, hc₀ne] at hadd
          have hCS : countColor (Grid.setCell g i j n') c = countColor g c := by omega
          rw [getf_setf_ne _ c₀ c _ hcc₀, getf_setf_ne cc tc c _ hctc, hCS]
          exact hm c

/-! ### Characterization of `coreStep` -/

/-- Whether `fill` has already visited `p` (false out of bounds). -/
def visitedAt (s : FillSt) (p : Position) : Bool :=
  if h : p.y < 16 ∧ p.x < 16 then s.visited ⟨p.y, h.1⟩ ⟨p.x, h.2⟩ else false

theorem hidden_setColor (n : Node) (tc : Color) (h : n.isHidden = true) :
    (n.setColor tc).1 = true := by
  cases n <;> simp_all [Node.isHidden, Node.setColor, Option.isNone_iff_eq_none]

theorem isColor_color (n : Node) (tc : Color) (h : n.isColor tc = true) :
    n.color = some tc := by
  cases n <;> simp_all [Node.isColor, Node.color]

theorem coreStep_visited (tc : Color) (s : FillSt) (p : Position)
    (h : visitedAt s p = true) : coreStep tc s p = .ret s := by
  unfold visitedAt at h
  split at h
  · next hb => simp [coreStep, hb.1, hb.2, h]
  · exact absurd h (by simp)

theorem coreStep_ret (tc : Color) (s : FillSt) (p : Position) (s' : FillSt)
    (h : coreStep tc s p = .ret s') :
    s'.grid = s.grid ∧ s'.counts = s.counts ∧ vle s.visited s'.visited := by
  simp only [coreStep] at h
  split at h
  · split at h
    · injection h with h1
      subst h1
      exact ⟨rfl, rfl, vle_refl _⟩
    · split at h
      · split at h
        · cases h
        · cases h
      · split at h
        · injection h with h1
          subst h1
          exact ⟨rfl, rfl, vle_mark _ _ _⟩
        · cases h
  · injection h with h1
    subst h1
    exact ⟨rfl, rfl, vle_refl _⟩

theorem coreStep_go_visited (tc : Color) (s : FillSt) (p : Position) (s' : FillSt)
    (n : Node) (h : coreStep tc s p = .go s' n) :
    ∃ (hy : p.y < 16) (hx : p.x < 16),
      s.visited ⟨p.y, hy⟩ ⟨p.x, hx⟩ = false
        ∧ s'.visited = upd2 s.visited ⟨p.y, hy⟩ ⟨p.x, hx⟩ true := by
  simp only [coreStep] at h
  split at h
  · next hb =>
    split at h
    · cases h
    · next hv =>
      refine ⟨hb.1, hb.2, by simpa using hv, ?_⟩
      split at h
      · split at h
        · cases h
        · injection h with h1 h2
          subst h1
          rfl
      · split at h
        · cases h
        · injection h with h1 h2
          subst h1
          rfl
  · cases h

theorem coreStep_go_grid (tc : Color) (s : FillSt) (p : Position) (s' : FillSt)
    (n : Node) (h : coreStep tc s p = .go s' n) :
    ∀ i j, (s'.grid i j).color = (s.grid i j).color ∨ (s'.grid i j).color = some tc := by
  simp only [coreStep] at h
  split at h
  · next hb =>
    split at h
    · cases h
    · split at h
      · next hch =>
        split at h
        · cases h
        · injection h with h1 h2
          subst h1
          intro i j
          by_cases hij : i = (⟨p.y, hb.1⟩ : Fin 16) ∧ j = (⟨p.x, hb.2⟩ : Fin 16)
          · obtain ⟨rfl, rfl⟩ := hij
            right
            have hpair : (s.grid ⟨p.y, hb.1⟩ ⟨p.x, hb.2⟩).setColor tc
                = (true, ((s.grid ⟨p.y, hb.1⟩ ⟨p.x, hb.2⟩).setColor tc).2) := by
              rw [← hch]
            have hst := setColor_true (s.grid ⟨p.y, hb.1⟩ ⟨p.x, hb.2⟩) tc _ hpair
            simpa [Grid.setCell, upd2_same] using hst.2
          · left
            simp only [Grid.setCell]
            rw [upd2_ne _ _ _ _ _ _ hij]
      · split at h
        · cases h
        · injection h with h1 h2
          subst h1
          intro i j
          exact Or.inl rfl
  · cases h

theorem coreStep_go_color (tc : Color) (s : FillSt) (p : Position) (s' : FillSt)
    (n : Node) (h : coreStep tc s p = .go s' n) :
    ∃ (hy : p.y < 16) (hx : p.x < 16),
      (s'.grid ⟨p.y, hy⟩ ⟨p.x, hx⟩).color = some tc := by
  simp only [coreStep] at h
  split at h
  · next hb =>
    split at h
    · cases h
    · refine ⟨hb.1, hb.2, ?_⟩
      split at h
      · next hch =>
        split at h
        · cases h
        · injection h with h1 h2
          subst h1
          have hpair : (s.grid ⟨p.y, hb.1⟩ ⟨p.x, hb.2⟩).setColor tc
              = (true, ((s.grid ⟨p.y, hb.1⟩ ⟨p.x, hb.2⟩).setColor tc).2) := by
            rw [← hch]
          have hst := setColor_true (s.grid ⟨p.y, hb.1⟩ ⟨p.x, hb.2⟩) tc _ hpair
          simpa [Grid.setCell, upd2_same] using hst.2
      · split at h
        · cases h
        · next hcol =>
          injection h with h1 h2
          subst h1
          simp only [Decidable.not_not] at hcol
          exact isColor_color _ tc hcol
  · cases h

theorem coreStep_counts (tc : Color) (s : FillSt) (p : Position)
    (hm : countsMatch s.counts s.grid) :
    coreStep tc s p ≠ .panicStep
      ∧ (∀ s', coreStep tc s p = .ret s' → countsMatch s'.counts s'.grid)
      ∧ (∀ s' n, coreStep tc s p = .go s' n → countsMatch s'.counts s'.grid) := by
  simp only [coreStep]
  split
  · next hb =>
    split
    · refine ⟨by simp, ?_, ?_⟩
      · intro s' h
        injection h with h1
        subst h1
        exact hm
      · intro s' n h
        cases h
    · split
      · next hch =>
        obtain ⟨hold, hnew⟩ := setColor_true (s.grid ⟨p.y, hb.1⟩ ⟨p.x, hb.2⟩) tc
          ((s.grid ⟨p.y, hb.1⟩ ⟨p.x, hb.2⟩).setColor tc).2 (by rw [← hch])
        obtain ⟨cc', hcc', hmm⟩ := change_set_ok s.counts s.grid ⟨p.y, hb.1⟩
          ⟨p.x, hb.2⟩ tc ((s.grid ⟨p.y, hb.1⟩ ⟨p.x, hb.2⟩).setColor tc).2 hm hold hnew
        rw [hcc']
        refine ⟨by simp, ?_, ?_⟩
        · intro s' h
          cases h
        · intro s' n h
          injection h with h1 h2
          subst h1
          exact hmm
      · split
        · refine ⟨by simp, ?_, ?_⟩
          · intro s' h
            injection h with h1
            subst h1
            exact hm
          · intro s' n h
            cases h
        · refine ⟨by simp, ?_, ?_⟩
          · intro s' h
            cases h
          · intro s' n h
            injection h with h1 h2
            subst h1
            exact hm
  · refine ⟨by simp, ?_, ?_⟩
    · intro s' h
      injection h with h1
      subst h1
      exact hm
    · intro s' n h
      cases h

/-! ### Lifting preservation properties through the recursion lists -/

section SeqLemmas

variable (rec : FillSt → Position → FillRes)

theorem seqFill_pres (Q : FillSt → FillSt → Prop) (hrefl : ∀ s, Q s s)
    (htrans : ∀ {a b c}, Q a b → Q b c → Q a c)
    (hrec : ∀ s q s', rec s q = .ok s' → Q s s') :
    ∀ l s s', seqFill rec l s = .ok s' → Q s s' := by
  intro l
  induction l with
  | nil =>
    intro s s' h
    simp only [seqFill] at h
    injection h with h1
    subst h1
    exact hrefl s
  | cons q qs ih =>
    intro s s' h
    simp only [seqFill] at h
    cases hr : rec s q with
    | fuel => rw [hr] at h; simp [bindRes] at h
    | panicked => rw [hr] at h; simp [bindRes] at h
    | ok s₁ =>
      rw [hr] at h
      simp only [bindRes] at h
      exact htrans (hrec s q s₁ hr) (ih s₁ s' h)

theorem seqIncoming_pres (p : Position) (Q : FillSt → FillSt → Prop)
    (hrefl : ∀ s, Q s s) (htrans : ∀ {a b c}, Q a b → Q b c → Q a c)
    (hrec : ∀ s q s', rec s q = .ok s' → Q s s') :
    ∀ l s s', seqIncoming rec p l s = .ok s' → Q s s' := by
  intro l
  induction l with
  | nil =>
    intro s s' h
    simp only [seqIncoming] at h
    injection h with h1
    subst h1
    exact hrefl s
  | cons d ds ih =>
    intro s s' h
    cases hm : p.move d with
    | none =>
      simp only [seqIncoming, hm] at h
      exact ih s s' h
    | some q =>
      cases hg : Grid.get s.grid q with
      | none =>
        simp only [seqIncoming, hm, hg] at h
        exact ih s s' h
      | some nn =>
        simp only [seqIncoming, hm, hg] at h
        split at h
        · cases hr : rec s q with
          | fuel => rw [hr] at h; simp [bindRes] at h
          | panicked => rw [hr] at h; simp [bindRes] at h
          | ok s₁ =>
            rw [hr] at h
            simp only [bindRes] at h
            exact htrans (hrec s q s₁ hr) (ih s₁ s' h)
        · exact ih s s' h

theorem seqFill_safe (P : FillSt → Prop)
    (hrec : ∀ s q, P s → rec s q ≠ .panicked ∧ ∀ s', rec s q = .ok s' → P s') :
    ∀ l s, P s → seqFill rec l s ≠ .panicked
      ∧ ∀ s', seqFill rec l s = .ok s' → P s' := by
  intro l
  induction l with
  | nil =>
    intro s hP
    refine ⟨by simp [seqFill], ?_⟩
    intro s' h
    simp only [seqFill] at h
    injection h with h1
    subst h1
    exact hP
  | cons q qs ih =>
    intro s hP
    simp only [seqFill]
    cases hr : rec s q with
    | fuel => simp [bindRes]
    | panicked => exact absurd hr (hrec s q hP).1
    | ok s₁ =>
      simp only [bindRes]
      exact ih s₁ ((hrec s q hP).2 s₁ hr)

theorem seqIncoming_safe (p : Position) (P : FillSt → Prop)
    (hrec : ∀ s q, P s → rec s q ≠ .panicked ∧ ∀ s', rec s q = .ok s' → P s') :
    ∀ l s, P s → seqIncoming rec p l s ≠ .panicked
      ∧ ∀ s', seqIncoming rec p l s = .ok s' → P s' := by
  intro l
  induction l with
  | nil =>
    intro s hP
    refine ⟨by simp [seqIncoming], ?_⟩
    intro s' h
    simp only [seqIncoming] at h
    injection h with h1
    subst h1
    exact hP
  | cons d ds ih =>
    intro s hP
    cases hm : p.move d with
    | none =>
      simp only [seqIncoming, hm]
      exact ih s hP
    | some q =>
      cases hg : Grid.get s.grid q with
      | none =>
        simp only [seqIncoming, hm, hg]
        exact ih s hP
      | some nn =>
        simp only [seqIncoming, hm, hg]
        split
        · cases hr : rec s q with
          | fuel => simp [bindRes]
          | panicked => exact absurd hr (hrec s q hP).1
          | ok s₁ =>
            simp only [bindRes]
            exact ih s₁ ((hrec s q hP).2 s₁ hr)
        · exact ih s hP

theorem seqFill_nofuel (k : Nat)
    (hmono : ∀ s q s', rec s q = .ok s' → vle s.visited s'.visited)
    (hnf : ∀ s q, uv s.visited ≤ k → rec s q ≠ .fuel) :
    ∀ l s, uv s.visited ≤ k → seqFill rec l s ≠ .fuel
      ∧ ∀ s', seqFill rec l s = .ok s' → uv s'.visited ≤ k := by
  intro l
  induction l with
  | nil =>
    intro s hk
    refine ⟨by simp [seqFill], ?_⟩
    intro s' h
    simp only [seqFill] at h
    cases h
    exact hk
  | cons q qs ih =>
    intro s hk
    simp only [seqFill]
    cases hr : rec s q with
    | fuel => exact absurd hr (hnf s q hk)
    | panicked => simp [bindRes]
    | ok s₁ =>
      simp only [bindRes]
      have hk₁ : uv s₁.visited ≤ k :=
        le_trans (uv_mono _ _ (hmono s q s₁ hr)) hk
      exact ih s₁ hk₁

theorem seqIncoming_nofuel (p : Position) (k : Nat)
    (hmono : ∀ s q s', rec s q = .ok s' → vle s.visited s'.visited)
    (hnf : ∀ s q, uv s.visited ≤ k → rec s q ≠ .fuel) :
    ∀ l s, uv s.visited ≤ k → seqIncoming rec p l s ≠ .fuel
      ∧ ∀ s', seqIncoming rec p l s = .ok s' → uv s'.visited ≤ k := by
  intro l
  induction l with
  | nil =>
    intro s hk
    refine ⟨by simp [seqIncoming], ?_⟩
    intro s' h
    simp only [seqIncoming] at h
    cases h
    exact hk
  | cons d ds ih =>
    intro s hk
    cases hm : p.move d with
    | none =>
      simp only [seqIncoming, hm]
      exact ih s hk
    | some q =>
      cases hg : Grid.get s.grid q with
      | none =>
        simp only [seqIncoming, hm, hg]
        exact ih s hk
      | some nn =>
        simp only [seqIncoming, hm, hg]
        split
        · cases hr : rec s q with
          | fuel => exact absurd hr (hnf s q hk)
          | panicked => simp [bindRes]
          | ok s₁ =>
            simp only [bindRes]
            have hk₁ : uv s₁.visited ≤ k :=
              le_trans (uv_mono _ _ (hmono s q s₁ hr)) hk
            exact ih s₁ hk₁
        · exact ih s hk

end SeqLemmas

/-! ### The fill recursion: visited-set monotonicity, recoloring direction,
count preservation, and fuel sufficiency -/

theorem fill_mono : ∀ fuel tc s p s', fillF fuel tc s p = .ok s' →
    vle s.visited s'.visited := by
  intro fuel
  induction fuel with
  | zero =>
    intro tc s p s' h
    simp [fillF] at h
  | succ fuel ih =>
    intro tc s p s' h
    cases hc : coreStep tc s p with
    | ret s₁ =>
      simp only [fillF, hc] at h
      cases h
      exact (coreStep_ret tc s p s' hc).2.2
    | panicStep =>
      simp only [fillF, hc] at h
      cases h
    | go s₁ node =>
      simp only [fillF, hc] at h
      obtain ⟨hy, hx, hvf, hveq⟩ := coreStep_go_visited tc s p s₁ node hc
      cases hsf : seqFill (fun s q => fillF fuel tc s q) (outTargets node p) s₁ with
      | fuel => rw [hsf] at h; simp [bindRes] at h
      | panicked => rw [hsf] at h; simp [bindRes] at h
      | ok s₂ =>
        rw [hsf] at h
        simp only [bindRes] at h
        have m1 : vle s.visited s₁.visited := by
          rw [hveq]; exact vle_mark _ _ _
        have m2 : vle s₁.visited s₂.visited :=
          seqFill_pres _ (fun a b => vle a.visited b.visited) (fun _ => vle_refl _)
            (fun {a b c} h1 h2 => vle_trans h1 h2)
            (fun s q s' hr => ih tc s q s' hr) _ s₁ s₂ hsf
        have m3 : vle s₂.visited s'.visited :=
          seqIncoming_pres _ p (fun a b => vle a.visited b.visited)
            (fun _ => vle_refl _) (fun {a b c} h1 h2 => vle_trans h1 h2)
            (fun s q s' hr => ih tc s q s' hr) _ s₂ s' h
        exact vle_trans m1 (vle_trans m2 m3)

/-- During `fill` a cell's color is only ever overwritten with the mover's
color. -/
theorem fill_colors : ∀ fuel tc s p s', fillF fuel tc s p = .ok s' →
    ∀ i j, (s'.grid i j).color = (s.grid i j).color
      ∨ (s'.grid i j).color = some tc := by
  intro fuel
  induction fuel with
  | zero =>
    intro tc s p s' h
    simp [fillF] at h
  | succ fuel ih =>
    intro tc s p s' h
    have hrefl : ∀ s : FillSt, ∀ i j : Fin 16,
        (s.grid i j).color = (s.grid i j).color ∨ (s.grid i j).color = some tc :=
      fun _ _ _ => Or.inl rfl
    have htrans : ∀ {a b c : FillSt},
        (∀ i j, (b.grid i j).color = (a.grid i j).color ∨ (b.grid i j).color = some tc) →
        (∀ i j, (c.grid i j).color = (b.grid i j).color ∨ (c.grid i j).color = some tc) →
        (∀ i j, (c.grid i j).color = (a.grid i j).color ∨ (c.grid i j).color = some tc) := by
      intro a b c h1 h2 i j
      rcases h2 i j with heq | htc
      · rcases h1 i j with h1e | h1tc
        · exact Or.inl (heq.trans h1e)
        · exact Or.inr (heq.trans h1tc)
      · exact Or.inr htc
    cases hc : coreStep tc s p with
    | ret s₁ =>
      simp only [fillF, hc] at h
      cases h
      have := (coreStep_ret tc s p s' hc).1
      intro i j
      rw [this]
      exact Or.inl rfl
    | panicStep =>
      simp only [fillF, hc] at h
      cases h
    | go s₁ node =>
      simp only [fillF, hc] at h
      have hQ1 := coreStep_go_grid tc s p s₁ node hc
      cases hsf : seqFill (fun s q => fillF fuel tc s q) (outTargets node p) s₁ with
      | fuel => rw [hsf] at h; simp [bindRes] at h
      | panicked => rw [hsf] at h; simp [bindRes] at h
      | ok s₂ =>
        rw [hsf] at h
        simp only [bindRes] at h
        have hQ2 := seqFill_pres _
          (fun a b => ∀ i j, (b.grid i j).color = (a.grid i j).color
            ∨ (b.grid i j).color = some tc)
          hrefl (fun {a b c} h1 h2 => htrans h1 h2)
          (fun s q s' hr => ih tc s q s' hr) _ s₁ s₂ hsf
        have hQ3 := seqIncoming_pres _ p
          (fun a b => ∀ i j, (b.grid i j).color = (a.grid i j).color
            ∨ (b.grid i j).color = some tc)
          hrefl (fun {a b c} h1 h2 => htrans h1 h2)
          (fun s q s' hr => ih tc s q s' hr) _ s₂ s' h
        exact htrans hQ1 (htrans hQ2 hQ3)

/-- `fill` never panics when the count invariant holds, and preserves it. -/
theorem fill_safe : ∀ fuel tc s p, countsMatch s.counts s.grid →
    fillF fuel tc s p ≠ .panicked
      ∧ ∀ s', fillF fuel tc s p = .ok s' → countsMatch s'.counts s'.grid := by
  intro fuel
  induction fuel with
  | zero =>
    intro tc s p hm
    refine ⟨by simp [fillF], ?_⟩
    intro s' h
    simp [fillF] at h
  | succ fuel ih =>
    intro tc s p hm
    obtain ⟨hnp, hret, hgo⟩ := coreStep_counts tc s p hm
    have hrec : ∀ s q, countsMatch s.counts s.grid →
        fillF fuel tc s q ≠ .panicked
          ∧ ∀ s', fillF fuel tc s q = .ok s' → countsMatch s'.counts s'.grid :=
      fun s q hm => ih tc s q hm
    cases hc : coreStep tc s p with
    | ret s₁ =>
      refine ⟨by simp [fillF, hc], ?_⟩
      intro s' h
      simp only [fillF, hc] at h
      cases h
      exact hret s₁ hc
    | panicStep => exact absurd hc hnp
    | go s₁ node =>
      have hm₁ : countsMatch s₁.counts s₁.grid := hgo s₁ node hc
      obtain ⟨hsf_np, hsf_pres⟩ := seqFill_safe _
        (fun s => countsMatch s.counts s.grid) hrec (outTargets node p) s₁ hm₁
      constructor
      · simp only [fillF, hc]
        cases hsf : seqFill (fun s q => fillF fuel tc s q) (outTargets node p) s₁ with
        | fuel => simp [bindRes]
        | panicked => exact absurd hsf hsf_np
        | ok s₂ =>
          simp only [bindRes]
          exact (seqIncoming_safe _ p (fun s => countsMatch s.counts s.grid) hrec
            _ s₂ (hsf_pres s₂ hsf)).1
      · intro s' h
        simp only [fillF, hc] at h
        cases hsf : seqFill (fun s q => fillF fuel tc s q) (outTargets node p) s₁ with
        | fuel => rw [hsf] at h; simp [bindRes] at h
        | panicked => rw [hsf] at h; simp [bindRes] at h
        | ok s₂ =>
          rw [hsf] at h
          simp only [bindRes] at h
          exact (seqIncoming_safe _ p (fun s => countsMatch s.counts s.grid) hrec
            _ s₂ (hsf_pres s₂ hsf)).2 s' h

/-- Fuel exceeding the number of unvisited cells is never exhausted: the
recursion depth of `fill` is bounded by the size of the visited array. -/
theorem fill_nofuel : ∀ fuel tc s p, uv s.visited < fuel →
    fillF fuel tc s p ≠ .fuel := by
  intro fuel
  induction fuel with
  | zero =>
    intro tc s p h
    exact absurd h (by omega)
  | succ fuel ih =>
    intro tc s p hlt
    cases hc : coreStep tc s p with
    | ret s₁ => simp [fillF, hc]
    | panicStep => simp [fillF, hc]
    | go s₁ node =>
      obtain ⟨hy, hx, hvf, hveq⟩ := coreStep_go_visited tc s p s₁ node hc
      have huv1 : uv s₁.visited + 1 = uv s.visited := by
        rw [hveq]; exact uv_mark _ _ _ hvf
      have hmono : ∀ s2 q s', fillF fuel tc s2 q = .ok s' →
          vle s2.visited s'.visited := fun s2 q s' hr => fill_mono fuel tc s2 q s' hr
      have hnf : ∀ s2 q, uv s2.visited ≤ uv s₁.visited →
          fillF fuel tc s2 q ≠ .fuel := by
        intro s2 q hle
        apply ih
        omega
      obtain ⟨hsf_nf, hsf_b⟩ := seqFill_nofuel _ (uv s₁.visited) hmono hnf
        (outTargets node p) s₁ (le_refl _)
      simp only [fillF, hc]
      cases hsf : seqFill (fun s q => fillF fuel tc s q) (outTargets node p) s₁ with
      | fuel => exact absurd hsf hsf_nf
      | panicked => simp [bindRes]
      | ok s₂ =>
        simp only [bindRes]
        exact (seqIncoming_nofuel _ p (uv s₁.visited) hmono hnf _ s₂ (hsf_b s₂ hsf)).1

/-- A `fill` call on an already visited cell returns immediately with the
state unchanged. -/
theorem fill_visited (fuel : Nat) (tc : Color) (s : FillSt) (p : Position)
    (h : visitedAt s p = true) : fillF (fuel + 1) tc s p = .ok s := by
  simp [fillF, coreStep_visited tc s p h]

/-! ### The beam walk -/

theorem get_some (g : Grid) (p : Position) (n : Node) (h : Grid.get g p = some n) :
    ∃ (hy : p.y < 16) (hx : p.x < 16), n = g ⟨p.y, hy⟩ ⟨p.x, hx⟩ := by
  unfold Grid.get at h
  split at h
  · next hb =>
    injection h with h1
    exact ⟨hb.1, hb.2, h1.symm⟩
  · cases h

theorem get_none (g : Grid) (p : Position) (h : Grid.get g p = none) :
    ¬(p.y < 16 ∧ p.x < 16) := by
  unfold Grid.get at h
  split at h
  · cases h
  · assumption

/-- The beam walk rewrites directions only, so the per-color cell counts
are untouched. -/
theorem beam_counts : ∀ fuel g d p g', beamF fuel g d p = .ok g' →
    ∀ c, countColor g' c = countColor g c := by
  intro fuel
  induction fuel with
  | zero =>
    intro g d p g' h
    simp [beamF] at h
  | succ fuel ih =>
    intro g d p g' h
    cases hm : p.move d with
    | none =>
      simp only [beamF, hm] at h
      cases h
      intro c
      rfl
    | some q =>
      cases hg : Grid.get g q with
      | none =>
        simp only [beamF, hm, hg] at h
        cases h
      | some node =>
        simp only [beamF, hm, hg] at h
        split at h
        · cases h
          intro c
          rfl
        · split at h
          · next hq =>
            intro c
            have hrec := ih _ d q g' h c
            obtain ⟨hy, hx, hnode⟩ := get_some g q node hg
            have hadd := countColor_setCell g ⟨q.y, hq.1⟩ ⟨q.x, hq.2⟩
              (node.setDirection d) c
            rw [setDirection_color] at hadd
            rw [← hnode] at hadd
            omega
          · cases h

/-- Fuel exceeding the walk measure is never exhausted by the beam. -/
theorem beam_nofuel : ∀ fuel g d p, beamMeasure d p < fuel →
    beamF fuel g d p ≠ .fuel := by
  intro fuel
  induction fuel with
  | zero =>
    intro g d p h
    exact absurd h (by omega)
  | succ fuel ih =>
    intro g d p hlt
    cases hm : p.move d with
    | none => simp [beamF, hm]
    | some q =>
      cases hg : Grid.get g q with
      | none => simp [beamF, hm, hg]
      | some node =>
        simp only [beamF, hm, hg]
        split
        · simp
        · split
          · next hq =>
            apply ih
            obtain ⟨hqy, hqx⟩ := hq
            have hmeas : beamMeasure d q < beamMeasure d p := by
              cases d <;> simp only [Position.move] at hm <;> split at hm <;>
                first
                  | (injection hm with h2
                     subst h2
                     simp only [beamMeasure] at hqx hqy ⊢
                     omega)
                  | (cases hm)
            omega
          · simp

/-! ## Notions used to state the claims -/

/-- The count invariant of a `Game`. -/
def countsInv (g : Game) : Prop := countsMatch g.color_counts g.grid

/-- The count invariant evaluated on the outcome of `execute_turn`: it must
hold after an `Ok` return and after an `Err` return (a panic aborts and
leaves no state to inspect). -/
def resultCountsInv : TurnResult → Prop
  | .ok g _ => countsInv g
  | .err g => countsInv g
  | .panicked => True

/-- Whether an `execute_turn` outcome is `Err(InvalidRotationPosition)`. -/
def isErr : TurnResult → Bool
  | .err _ => true
  | _ => false

/-- The game state carried by an `Err` outcome. -/
def errGame : TurnResult → Option Game
  | .err g => some g
  | _ => none

/-- The ownership test of `execute_turn` step 1: the rotate position is in
bounds and the node there is colored `turn_color`. -/
def ownsB (g : Game) (t : Turn) : Bool :=
  match Grid.get g.grid t.rotate with
  | none => false
  | some n => n.isColor g.turn_color

/-- Whether the target of a turn is an `Empty` or `Wall` node. -/
def targetInert (g : Game) (t : Turn) : Bool :=
  match Grid.get g.grid t.rotate with
  | some .Empty => true
  | some .Wall => true
  | _ => false

/-- The color of the cell at row `r`, column `c` after a `fill` outcome
(`none` for a panic or fuel exhaustion). -/
def fillColorAt (res : FillRes) (r c : Nat) : Option Color :=
  match res with
  | .ok s => (Grid.gread s.grid r c).color
  | _ => none

/-- After a normal `fill` return the cell at row `r`, column `c` holds the
mover's color (trivially true for abnormal outcomes). -/
def fillAssigns (res : FillRes) (r c : Nat) (tc : Color) : Prop :=
  match res with
  | .ok s => (Grid.gread s.grid r c).color = some tc
  | _ => True

theorem uv_fresh : uv (fun _ _ => false) = 256 := by decide

theorem countsMatch_of_eq (cc : ColorCounts) (g g' : Grid)
    (hm : countsMatch cc g) (he : ∀ c, countColor g' c = countColor g c) :
    countsMatch cc g' := by
  intro c
  rw [he c]
  exact hm c

theorem countColor_set_samecolor (g : Grid) (i j : Fin 16) (n : Node)
    (h : n.color = (g i j).color) :
    ∀ c, countColor (Grid.setCell g i j n) c = countColor g c := by
  intro c
  have hadd := countColor_setCell g i j n c
  rw [h] at hadd
  omega

/-! ## The claims -/

/-- Claim C2: for every grid, starting position and fresh visited set,
`Game::fill` terminates — 257 fuel units, one per recursion level beyond
the 256 markable cells, are never exhausted — it visits each cell at most
once (the visited set only grows, and a call on a visited cell returns
immediately without doing anything), and its recursion depth is bounded
by the 256 cells plus the final guard level. -/
theorem c2_fill_terminates :
    (∀ tc g cc p, fillF 257 tc ⟨g, cc, fun _ _ => false⟩ p ≠ .fuel)
      ∧ (∀ fuel tc s p s', fillF fuel tc s p = .ok s' → vle s.visited s'.visited)
      ∧ (∀ fuel tc s p, visitedAt s p = true → fillF (fuel + 1) tc s p = .ok s) := by
  refine ⟨?_, fill_mono, fill_visited⟩
  intro tc g cc p
  apply fill_nofuel
  show uv (fun _ _ => false) < 257
  rw [uv_fresh]
  omega

/-- Claim C2 witness: a `fill` call on an already-visited position returns
the state unchanged, at a concrete input. -/
theorem c2_fill_terminates_witness :
    visitedAt ⟨fun _ _ => Node.Empty, ⟨none, none, none, none⟩, fun _ _ => true⟩
        ⟨3, 4⟩ = true
      ∧ fillF 257 Color.Red
          ⟨fun _ _ => Node.Empty, ⟨none, none, none, none⟩, fun _ _ => true⟩
          ⟨3, 4⟩
        = .ok ⟨fun _ _ => Node.Empty, ⟨none, none, none, none⟩, fun _ _ => true⟩ :=
  ⟨by decide, c2_fill_terminates.2.2 256 Color.Red
    ⟨fun _ _ => Node.Empty, ⟨none, none, none, none⟩, fun _ _ => true⟩
    ⟨3, 4⟩ (by decide)⟩

/-- Claim C3: `execute_turn` returns `Err(InvalidRotationPosition)` exactly
when the rotate position is out of bounds or the node there is not colored
`turn_color`, and the `Err` outcome carries the unchanged game state (the
function returns before mutating anything). -/
theorem c3_error_iff (g : Game) (t : Turn) :
    isErr (executeTurn g t) = !ownsB g t
      ∧ (errGame (executeTurn g t) = none ∨ errGame (executeTurn g t) = some g) := by
  cases hget : Grid.get g.grid t.rotate with
  | none =>
    simp only [executeTurn, ownsB, hget]
    exact ⟨rfl, Or.inr rfl⟩
  | some node =>
    simp only [executeTurn, ownsB, hget]
    split
    · next hc =>
      simp only [Bool.not_eq_true] at hc
      simp [isErr, errGame, hc]
    · next hc =>
      simp only [Decidable.not_not] at hc
      rw [hc]
      split
      · simp [isErr, errGame]
      · simp [isErr, errGame]
      · split
        · simp [isErr, errGame]
        · simp [isErr, errGame]
        · simp [isErr, errGame]

/-- Claim C5 counterexample: from `(15, 0)` a step Right leaves the 16×16
board, yet `Position::move` returns `Some((16, 0))` rather than `None` —
the bound it enforces is the `u8` range, not the board. -/
theorem c5_counterexample :
    Position.move ⟨15, 0⟩ .Right = some ⟨16, 0⟩
      ∧ Position.move ⟨15, 0⟩ .Right ≠ none
      ∧ 15 + 1 ≥ 16 := by
  refine ⟨by decide, by decide, by omega⟩

/-- Claim C5 (amended): for positions on the 16×16 board, `Position::move`
returns `None` exactly at the `u8` boundary — Left at `x = 0` and Up at
`y = 0`; Right and Down from the board always return `Some` of the
adjacent coordinates, which may lie outside the board (board bounds are
enforced by `Grid::get` instead). -/
theorem c5_move_amended (p : Position) (d : Direction)
    (hx : p.x < 16) (hy : p.y < 16) :
    (p.move d = none ↔ (d = .Left ∧ p.x = 0) ∨ (d = .Up ∧ p.y = 0))
      ∧ (p.move d = none ∨ p.move d = some (p.step d)) := by
  cases d <;> constructor <;>
    simp [Position.move, Position.step] <;> omega

/-- Claim C5 witness: the amended characterization at the concrete position
`(15, 0)`. -/
theorem c5_move_amended_witness :
    (15 : Nat) < 16
      ∧ ((Position.move ⟨15, 0⟩ .Right = none
            ↔ (Direction.Right = .Left ∧ 15 = 0) ∨ (Direction.Right = .Up ∧ 0 = 0))
          ∧ (Position.move ⟨15, 0⟩ .Right = none
              ∨ Position.move ⟨15, 0⟩ .Right = some (Position.step ⟨15, 0⟩ .Right))) :=
  ⟨by decide, c5_move_amended ⟨15, 0⟩ .Right (by decide) (by decide)⟩

/-- Claim C1: a `Game` built from any grid satisfies the count invariant —
each stored counter equals the number of cells aligned to that color,
`None` exactly when that number is zero — and every `execute_turn` call
that returns (`Ok` or `Err`) preserves it. -/
theorem c1_count_invariant :
    (∀ tc grid, countsInv (Game.build tc grid))
      ∧ ∀ g t, countsInv g → resultCountsInv (executeTurn g t) := by
  constructor
  · intro tc grid c
    cases c <;> simp only [countsMatch, Game.build, Grid.colorCounts, ColorCounts.getf]
  · intro g t hg
    cases hget : Grid.get g.grid t.rotate with
    | none =>
      simp only [executeTurn, hget]
      exact hg
    | some node =>
      obtain ⟨hy, hx, hnode⟩ := get_some _ _ _ hget
      simp only [executeTurn, hget]
      split
      · exact hg
      · rw [dif_pos ⟨hy, hx⟩]
        have hall : ∀ c, countColor
            (Grid.setCell g.grid ⟨t.rotate.y, hy⟩ ⟨t.rotate.x, hx⟩ node.rotate) c
              = countColor g.grid c := by
          apply countColor_set_samecolor
          rw [rotate_color, ← hnode]
        split
        · trivial
        · trivial
        · next grid₂ hbeam =>
          have hge : ∀ c, countColor grid₂ c
              = countColor (Grid.setCell g.grid ⟨t.rotate.y, hy⟩ ⟨t.rotate.x, hx⟩
                  node.rotate) c := by
            cases hnr : node.rotate with
            | SuperArrow a d =>
              simp only [hnr] at hbeam
              intro c
              rw [beam_counts 256 _ d t.rotate grid₂ hbeam c]
            | Empty =>
              simp only [hnr] at hbeam
              rw [BeamRes.ok.injEq] at hbeam
              intro c
              rw [← hbeam]
            | Wall =>
              simp only [hnr] at hbeam
              rw [BeamRes.ok.injEq] at hbeam
              intro c
              rw [← hbeam]
            | Arrow a d =>
              simp only [hnr] at hbeam
              rw [BeamRes.ok.injEq] at hbeam
              intro c
              rw [← hbeam]
            | AllDirection a =>
              simp only [hnr] at hbeam
              rw [BeamRes.ok.injEq] at hbeam
              intro c
              rw [← hbeam]
          have hcm2 : countsMatch g.color_counts grid₂ :=
            countsMatch_of_eq _ _ _ hg (fun c => (hge c).trans (hall c))
          split
          · trivial
          · trivial
          · next s hfill =>
            simp only [resultCountsInv, countsInv]
            exact (fill_safe 257 g.turn_color
              ⟨grid₂, g.color_counts, fun _ _ => false⟩ t.rotate hcm2).2 s hfill

instance (g : Game) : Decidable (countsInv g) :=
  inferInstanceAs (Decidable (countsMatch _ _))

/-- A small board for concrete checks: a red arrow at (0,0) pointing Up, an
unaligned arrow at (1,0) pointing Right, a blue arrow at (5,5). -/
def gridW : Grid := fun i j =>
  if i = 0 ∧ j = 0 then .Arrow (some .Red) .Up
  else if i = 0 ∧ j = 1 then .Arrow none .Right
  else if i = 5 ∧ j = 5 then .Arrow (some .Blue) .Down
  else .Empty

/-- The game built from `gridW` with Red to move. -/
def gW : Game := Game.build .Red gridW

/-- Claim C1 witness: the invariant holds for the game built from `gridW`
and after the `execute_turn` rotating its corner arrow. -/
theorem c1_count_invariant_witness :
    countsInv gW ∧ resultCountsInv (executeTurn gW ⟨⟨0, 0⟩⟩) :=
  ⟨by decide, c1_count_invariant.2 gW ⟨⟨0, 0⟩⟩ (by decide)⟩

/-- A board whose only non-empty cell is a red SuperArrow at (0,0) pointing
Up; rotating it points it Right along an empty row. -/
def grid4 : Grid := fun i j =>
  if i = 0 ∧ j = 0 then .SuperArrow (some .Red) .Up else .Empty

/-- The game built from `grid4` with Red to move. -/
def g4 : Game := Game.build .Red grid4

/-- Claim C4: rotating the red SuperArrow at (0,0) to point Right projects
the beam along row 0; no Wall stops it, so the walk reaches `(16, 0)` —
`Position::move` only stops at the `u8` boundary — where
`grid.get_mut(new_pos).unwrap()` panics.  `execute_turn` aborts instead of
terminating normally at the board edge. -/
theorem c4_beam_edge_panics :
    Grid.get g4.grid ⟨0, 0⟩ = some (.SuperArrow (some .Red) .Up)
      ∧ executeTurn g4 ⟨⟨0, 0⟩⟩ = .panicked := by
  constructor
  · rfl
  · rfl

/-- A board with a red arrow at (0,0) pointing Right at a hidden
`AllDirection` junction at (1,0). -/
def grid6 : Grid := fun i j =>
  if i = 0 ∧ j = 0 then .Arrow (some .Red) .Right
  else if i = 0 ∧ j = 1 then .AllDirection none
  else .Empty

/-- The fill state for `grid6`: matching counts, fresh visited array. -/
def s6 : FillSt := ⟨grid6, Grid.colorCounts grid6, fun _ _ => false⟩

/-- Claim C6 counterexample: the junction at (1,0) is hidden (alignment
`None`), yet `fill` started from the red arrow at (0,0) reaches it along
the arrow's outgoing direction and assigns it the mover's color — hidden
nodes do not block direct propagation. -/
theorem c6_counterexample :
    (s6.grid 0 1).isHidden = true
      ∧ fillColorAt (fillF 257 Color.Red s6 ⟨0, 0⟩) 0 1 = some Color.Red := by
  constructor
  · rfl
  · rfl

/-- Claim C6 (amended): when `fill` reaches an unaligned (hidden) node at
an unvisited in-bounds position, it does assign it the mover's color:
`set_color` succeeds on a hidden node, unhiding it, and the rest of the
fill never changes a cell to anything but the mover's color.  (Hidden
nodes block only the reverse scan: a hidden neighbor is never pulled in,
and a hidden node propagates nothing of its own while unaligned.) -/
theorem c6_hidden_assigns (fuel : Nat) (tc : Color) (s : FillSt) (p : Position)
    (hy : p.y < 16) (hx : p.x < 16) (hv : visitedAt s p = false)
    (hh : (Grid.gread s.grid p.y p.x).isHidden = true) :
    fillAssigns (fillF (fuel + 1) tc s p) p.y p.x tc := by
  have hh' : (s.grid ⟨p.y, hy⟩ ⟨p.x, hx⟩).isHidden = true := by
    unfold Grid.gread at hh
    rw [dif_pos ⟨hy, hx⟩] at hh
    exact hh
  have hv' : s.visited ⟨p.y, hy⟩ ⟨p.x, hx⟩ = false := by
    unfold visitedAt at hv
    rw [dif_pos ⟨hy, hx⟩] at hv
    exact hv
  cases hc : coreStep tc s p with
  | panicStep => simp [fillF, hc, fillAssigns]
  | ret s₁ =>
    exfalso
    simp only [coreStep] at hc
    rw [dif_pos ⟨hy, hx⟩] at hc
    rw [if_neg (by simp [hv'])] at hc
    rw [if_pos (hidden_setColor _ tc hh')] at hc
    split at hc
    · cases hc
    · cases hc
  | go s₁ node =>
    obtain ⟨hy2, hx2, hcol⟩ := coreStep_go_color tc s p s₁ node hc
    simp only [fillF, hc]
    cases hsf : seqFill (fun s q => fillF fuel tc s q) (outTargets node p) s₁ with
    | fuel => simp [bindRes, fillAssigns]
    | panicked => simp [bindRes, fillAssigns]
    | ok s₂ =>
      simp only [bindRes]
      have hQ2 := seqFill_pres (fun s q => fillF fuel tc s q)
        (fun a b => ∀ i j, (b.grid i j).color = (a.grid i j).color
          ∨ (b.grid i j).color = some tc)
        (fun _ _ _ => Or.inl rfl)
        (fun {a b c} h1 h2 i j => by
          rcases h2 i j with heq | htc
          · rcases h1 i j with h1e | h1tc
            · exact Or.inl (heq.trans h1e)
            · exact Or.inr (heq.trans h1tc)
          · exact Or.inr htc)
        (fun s q s' hr => fill_colors fuel tc s q s' hr) _ s₁ s₂ hsf
      cases hsi : seqIncoming (fun s q => fillF fuel tc s q) p
          [Direction.Left, Direction.Up, Direction.Right, Direction.Down] s₂ with
      | fuel => simp [fillAssigns]
      | panicked => simp [fillAssigns]
      | ok s₃ =>
        have hQ3 := seqIncoming_pres (fun s q => fillF fuel tc s q) p
          (fun a b => ∀ i j, (b.grid i j).color = (a.grid i j).color
            ∨ (b.grid i j).color = some tc)
          (fun _ _ _ => Or.inl rfl)
          (fun {a b c} h1 h2 i j => by
            rcases h2 i j with heq | htc
            · rcases h1 i j with h1e | h1tc
              · exact Or.inl (heq.trans h1e)
              · exact Or.inr (heq.trans h1tc)
            · exact Or.inr htc)
          (fun s q s' hr => fill_colors fuel tc s q s' hr) _ s₂ s₃ hsi
        simp only [fillAssigns]
        unfold Grid.gread
        rw [dif_pos ⟨hy, hx⟩]
        rcases hQ3 ⟨p.y, hy⟩ ⟨p.x, hx⟩ with he3 | ht3
        · rcases hQ2 ⟨p.y, hy⟩ ⟨p.x, hx⟩ with he2 | ht2
          · rw [he3, he2]
            exact hcol
          · rw [he3]
            exact ht2
        · exact ht3

/-- Claim C6 amended witness: the hidden junction of `grid6`, filled
directly, ends up carrying the mover's color. -/
theorem c6_hidden_assigns_witness :
    visitedAt s6 ⟨1, 0⟩ = false
      ∧ (Grid.gread s6.grid 0 1).isHidden = true
      ∧ fillAssigns (fillF 257 Color.Red s6 ⟨1, 0⟩) 0 1 Color.Red :=
  ⟨by decide, by decide,
    c6_hidden_assigns 256 Color.Red s6 ⟨1, 0⟩ (by decide) (by decide)
      (by decide) (by decide)⟩

/-- A board whose only non-empty cell is an `AllDirection` junction at
(0,0) aligned to Red. -/
def grid9 : Grid := fun i j =>
  if i = 0 ∧ j = 0 then .AllDirection (some .Red) else .Empty

/-- The game built from `grid9` with Red to move. -/
def g9 : Game := Game.build .Red grid9

/-- Claim C9 counterexample: the target of the turn is an `AllDirection`
node aligned to the mover, and `execute_turn` does not fail — aligned
junctions pass the ownership check (`Node::is_color` covers them). -/
theorem c9_counterexample :
    Grid.get g9.grid ⟨0, 0⟩ = some (.AllDirection (some .Red))
      ∧ isErr (executeTurn g9 ⟨⟨0, 0⟩⟩) = false := by
  constructor
  · rfl
  · rfl

/-- Claim C9 (amended): `Empty` and `Wall` nodes are never owned by any
mover — `Node::is_color` is false for them — so a `Turn` targeting such a
node always fails with `InvalidRotationPosition` and leaves the game
unchanged.  (Aligned `AllDirection` nodes, by contrast, can be owned and
are admitted by the check.) -/
theorem c9_inert_rejected (g : Game) (t : Turn)
    (h : targetInert g t = true) : executeTurn g t = .err g := by
  cases hget : Grid.get g.grid t.rotate with
  | none => simp [targetInert, hget] at h
  | some n =>
    cases n with
    | Empty => simp [executeTurn, hget, Node.isColor]
    | Wall => simp [executeTurn, hget, Node.isColor]
    | Arrow a d => simp [targetInert, hget] at h
    | AllDirection a => simp [targetInert, hget] at h
    | SuperArrow a d => simp [targetInert, hget] at h

/-- Claim C9 amended witness: a turn targeting the empty cell (1,1) of
`gridW` is rejected with the game unchanged. -/
theorem c9_inert_rejected_witness :
    targetInert gW ⟨⟨1, 1⟩⟩ = true ∧ executeTurn gW ⟨⟨1, 1⟩⟩ = .err gW :=
  ⟨by decide, c9_inert_rejected gW ⟨⟨1, 1⟩⟩ (by decide)⟩

/-- A board whose only non-empty cell is an arrow at position (15,0) (row
0, column 15) pointing Right, off the board. -/
def gridA : Grid := fun i j =>
  if i = 0 ∧ j = 15 then .Arrow none .Right else .Empty

/-- Claim C10: `Grid::weight` from position (15,0) on `gridA` follows the
edge arrow to `(16, 0)` — `Position::move` only stops at the `u8` boundary
— and the recursive call indexes `visited[0][16]` before the bounds check
`self.get(position)` can return `None`, panicking.  `Game::weight`
inherits the panic.  (The dead `None => 0` arm of `get` inside `weight`
shows the intent was to tolerate out-of-board positions.) -/
theorem c10_weight_panics :
    gridA 0 15 = .Arrow none .Right
      ∧ weightF 300 gridA ⟨15, 0⟩ (fun _ _ => false) = .panicked
      ∧ Game.weight (Game.build .Red gridA) ⟨15, 0⟩ = .panicked := by
  refine ⟨rfl, rfl, rfl⟩

/-- Claim C7: `Pcg32Fast::new` forces the state to `seed * 2 + 1`
(wrapping), `next_u32` permutes as modelled by `pcgNextU32`, and the first
ten outputs for seed `0xcafef00dd15ea5e5` equal the golden sequence of the
repository's own test. -/
theorem c7_pcg_golden :
    (∀ seed, pcgNew seed = (seed * 2 + 1) % 2 ^ 64)
      ∧ pcgOutputs 10 (pcgNew 0xcafef00dd15ea5e5)
        = [4129627752, 2392381265, 4143941195, 220930253, 4257109229,
           972448136, 934764305, 873243406, 383284308, 780176459] :=
  ⟨fun _ => rfl, by rfl⟩

/-! ## Claim C8: symmetry of the generated grid -/

/-- A node the wall/secret bucket of `populate_wall` can produce. -/
def wallish (n : Node) : Prop :=
  n = .Wall ∨ n = .AllDirection none ∨ ∃ d, n = .SuperArrow none d

/-- The four cells (row, column) written together for the quadrant cell
`(x, y)`: `self.0[y][x]`, `self.0[15-x][y]`, `self.0[x][15-y]`,
`self.0[15-y][15-x]`. -/
def orbitCells (x y : Nat) : List (Nat × Nat) :=
  [(y, x), (15 - x, y), (x, 15 - y), (15 - y, 15 - x)]

/-- Rotation-consistency of the four cells written for quadrant cell
`(x, y)`: either all four hold arrows whose directions are the
counter-clockwise, clockwise and opposite rotations of the base, or all
four come from the wall/secret bucket (whose four draws are independent). -/
def rotOrbit (g : Grid) (x y : Nat) : Prop :=
  (∃ d a₁ a₂ a₃ a₄,
    Grid.gread g y x = .Arrow a₁ d
      ∧ Grid.gread g (15 - x) y = .Arrow a₂ d.counter_clockwise
      ∧ Grid.gread g x (15 - y) = .Arrow a₃ d.clockwise
      ∧ Grid.gread g (15 - y) (15 - x) = .Arrow a₄ d.opposite)
  ∨ (wallish (Grid.gread g y x) ∧ wallish (Grid.gread g (15 - x) y)
      ∧ wallish (Grid.gread g x (15 - y))
      ∧ wallish (Grid.gread g (15 - y) (15 - x)))

theorem gread_gset_same (g : Grid) (r c : Nat) (n : Node)
    (hb : r < 16 ∧ c < 16) : Grid.gread (Grid.gset g r c n) r c = n := by
  unfold Grid.gread Grid.gset
  simp only [dif_pos hb]
  exact upd2_same _ _ _ _

theorem gread_gset_other (g : Grid) (r c r' c' : Nat) (n : Node)
    (h : ¬(r = r' ∧ c = c')) :
    Grid.gread (Grid.gset g r' c' n) r c = Grid.gread g r c := by
  by_cases hb : r < 16 ∧ c < 16
  · by_cases hb' : r' < 16 ∧ c' < 16
    · unfold Grid.gread Grid.gset
      simp only [dif_pos hb, dif_pos hb']
      apply upd2_ne
      rintro ⟨h1, h2⟩
      exact h ⟨congrArg Fin.val h1, congrArg Fin.val h2⟩
    · unfold Grid.gread Grid.gset
      simp only [dif_pos hb, dif_neg hb']
  · unfold Grid.gread Grid.gset
    simp only [dif_neg hb]

/-- `populate_reflected_arrows` leaves cells outside the orbit unchanged. -/
theorem pra_other (g : Grid) (x y : Nat) (d : Direction) (r c : Nat)
    (h1 : ¬(r = y ∧ c = x)) (h2 : ¬(r = 15 - x ∧ c = y))
    (h3 : ¬(r = x ∧ c = 15 - y)) (h4 : ¬(r = 15 - y ∧ c = 15 - x)) :
    Grid.gread (populateReflectedArrows g x y d) r c = Grid.gread g r c := by
  unfold populateReflectedArrows
  rw [gread_gset_other _ _ _ _ _ _ h4, gread_gset_other _ _ _ _ _ _ h3,
    gread_gset_other _ _ _ _ _ _ h2, gread_gset_other _ _ _ _ _ _ h1]

/-- The four cells written by `populate_reflected_arrows`. -/
theorem pra_reads (g : Grid) (x y : Nat) (d : Direction) (hx : x < 8) (hy : y < 8) :
    Grid.gread (populateReflectedArrows g x y d) y x = .Arrow none d
      ∧ Grid.gread (populateReflectedArrows g x y d) (15 - x) y
          = .Arrow none d.counter_clockwise
      ∧ Grid.gread (populateReflectedArrows g x y d) x (15 - y)
          = .Arrow none d.clockwise
      ∧ Grid.gread (populateReflectedArrows g x y d) (15 - y) (15 - x)
          = .Arrow none d.opposite := by
  unfold populateReflectedArrows
  refine ⟨?_, ?_, ?_, ?_⟩
  · rw [gread_gset_other _ _ _ _ _ _ (by omega), gread_gset_other _ _ _ _ _ _ (by omega),
      gread_gset_other _ _ _ _ _ _ (by omega), gread_gset_same _ _ _ _ (by omega)]
  · rw [gread_gset_other _ _ _ _ _ _ (by omega), gread_gset_other _ _ _ _ _ _ (by omega),
      gread_gset_same _ _ _ _ (by omega)]
  · rw [gread_gset_other _ _ _ _ _ _ (by omega), gread_gset_same _ _ _ _ (by omega)]
  · rw [gread_gset_same _ _ _ _ (by omega)]

/-- `populate_wall` writes one wall-bucket node at `self.0[y][x]`. -/
theorem pw_wallish (g : Grid) (x y : Nat) (st : Nat) (hb : y < 16 ∧ x < 16) :
    wallish (Grid.gread (populateWall g x y st).1 y x) := by
  simp only [populateWall]
  split
  · exact Or.inr (Or.inl (gread_gset_same _ _ _ _ hb))
  · split
    · exact Or.inr (Or.inr ⟨_, gread_gset_same _ _ _ _ hb⟩)
    · exact Or.inl (gread_gset_same _ _ _ _ hb)

/-- `populate_wall` touches no other cell. -/
theorem pw_other (g : Grid) (x y : Nat) (st : Nat) (r c : Nat)
    (h : ¬(r = y ∧ c = x)) :
    Grid.gread (populateWall g x y st).1 r c = Grid.gread g r c := by
  simp only [populateWall]
  split
  · exact gread_gset_other _ _ _ _ _ _ h
  · split
    · exact gread_gset_other _ _ _ _ _ _ h
    · exact gread_gset_other _ _ _ _ _ _ h

/-- Distinct quadrant cells have disjoint orbits: each orbit has exactly
one cell in each board quadrant, determined by its representative. -/
theorem orbit_disjoint (x y x' y' : Nat) (hx : x < 8) (hy : y < 8)
    (hx' : x' < 8) (hy' : y' < 8) (hne : (x', y') ≠ (x, y)) :
    ∀ r c, (r, c) ∈ orbitCells x y → (r, c) ∉ orbitCells x' y' := by
  intro r c hin hin'
  simp only [orbitCells, List.mem_cons, List.mem_singleton, Prod.mk.injEq,
    List.not_mem_nil, or_false] at hin hin'
  rcases hin with h | h | h | h <;> rcases hin' with h' | h' | h' | h' <;>
    exact hne (by rw [Prod.mk.injEq]; omega)

/-- One generation iteration writes only inside the orbit of its quadrant
cell. -/
theorem genStep_other (acc : Grid × Nat) (x y r c : Nat) (hx : x < 8) (hy : y < 8)
    (h1 : ¬(r = y ∧ c = x)) (h2 : ¬(r = 15 - x ∧ c = y))
    (h3 : ¬(r = x ∧ c = 15 - y)) (h4 : ¬(r = 15 - y ∧ c = 15 - x)) :
    Grid.gread (gridOf (genStep acc (x, y))) r c = Grid.gread (gridOf acc) r c := by
  simp only [gridOf, genStep]
  split
  · exact pra_other _ _ _ _ _ _ h1 h2 h3 h4
  · split
    · exact pra_other _ _ _ _ _ _ h1 h2 h3 h4
    · split
      · exact pra_other _ _ _ _ _ _ h1 h2 h3 h4
      · split
        · exact pra_other _ _ _ _ _ _ h1 h2 h3 h4
        · split
          · exact pra_other _ _ _ _ _ _ h1 h2 h3 h4
          · split
            · exact pra_other _ _ _ _ _ _ h1 h2 h3 h4
            · rw [pw_other _ _ _ _ _ _ h4, pw_other _ _ _ _ _ _ h2,
                pw_other _ _ _ _ _ _ h3, pw_other _ _ _ _ _ _ h1]

/-- One generation iteration establishes orbit rotation-consistency for
its quadrant cell. -/
theorem genStep_orbit (acc : Grid × Nat) (x y : Nat) (hx : x < 8) (hy : y < 8) :
    rotOrbit (gridOf (genStep acc (x, y))) x y := by
  simp only [gridOf, genStep]
  split
  · exact Or.inl ⟨_, none, none, none, none, pra_reads acc.1 x y _ hx hy⟩
  · split
    · exact Or.inl ⟨_, none, none, none, none, pra_reads acc.1 x y _ hx hy⟩
    · split
      · exact Or.inl ⟨_, none, none, none, none, pra_reads acc.1 x y _ hx hy⟩
      · split
        · exact Or.inl ⟨_, none, none, none, none, pra_reads acc.1 x y _ hx hy⟩
        · split
          · exact Or.inl ⟨_, none, none, none, none, pra_reads acc.1 x y _ hx hy⟩
          · split
            · exact Or.inl ⟨_, none, none, none, none, pra_reads acc.1 x y _ hx hy⟩
            · refine Or.inr ⟨?_, ?_, ?_, ?_⟩
              · rw [pw_other _ _ _ _ _ _ (by omega), pw_other _ _ _ _ _ _ (by omega),
                  pw_other _ _ _ _ _ _ (by omega)]
                exact pw_wallish _ _ _ _ (by omega)
              · rw [pw_other _ _ _ _ _ _ (by omega)]
                exact pw_wallish _ _ _ _ (by omega)
              · rw [pw_other _ _ _ _ _ _ (by omega), pw_other _ _ _ _ _ _ (by omega)]
                exact pw_wallish _ _ _ _ (by omega)
              · exact pw_wallish _ _ _ _ (by omega)

/-- Folding the generation loop over cells whose orbits avoid the orbit of
`(x, y)` leaves that orbit unchanged. -/
theorem foldl_preserve : ∀ (l : List (Nat × Nat)) (acc : Grid × Nat) (x y : Nat),
    x < 8 → y < 8 →
    (∀ xy ∈ l, xy.1 < 8 ∧ xy.2 < 8 ∧ (xy.1, xy.2) ≠ (x, y)) →
    ∀ r c, (r, c) ∈ orbitCells x y →
      Grid.gread (gridOf (l.foldl genStep acc)) r c = Grid.gread (gridOf acc) r c := by
  intro l
  induction l with
  | nil =>
    intro acc x y hx hy hmem r c hrc
    rfl
  | cons p ps ih =>
    intro acc x y hx hy hmem r c hrc
    obtain ⟨hx', hy', hne⟩ := hmem p (List.mem_cons_self _ _)
    have hrest : ∀ xy ∈ ps, xy.1 < 8 ∧ xy.2 < 8 ∧ (xy.1, xy.2) ≠ (x, y) :=
      fun xy hxy => hmem xy (List.mem_cons_of_mem _ hxy)
    rw [List.foldl_cons, ih (genStep acc p) x y hx hy hrest r c hrc]
    have hno : (r, c) ∉ orbitCells p.1 p.2 :=
      orbit_disjoint x y p.1 p.2 hx hy hx' hy' hne r c hrc
    simp only [orbitCells, List.mem_cons, List.not_mem_nil, or_false,
      Prod.mk.injEq, not_or] at hno
    obtain ⟨n1, n2, n3, n4⟩ := hno
    exact genStep_other acc p.1 p.2 r c hx' hy' n1 n2 n3 n4

set_option maxRecDepth 10000 in
/-- Claim C8 (amended): for every seed and quadrant cell `(x, y)` (x, y <
8, including the seeded corner), the four cells `self.0[y][x]`,
`self.0[15-x][y]`, `self.0[x][15-y]`, `self.0[15-y][15-x]` of the
generated board either hold arrows rotated counter-clockwise / clockwise /
opposite relative to the base cell, or all stem from the wall/secret
bucket, whose four draws are independent and need not agree in kind.  The
mirror positions are the transposed index pairs the code writes, not the
`(15-x, y)`-style mirror positions of the claim. -/
theorem c8_orbit_symmetry : ∀ (seed x y : Nat), x < 8 → y < 8 →
    rotOrbit (Grid.generate seed) x y := by
  intro seed x y hx hy
  by_cases h00 : x = 0 ∧ y = 0
  · obtain ⟨rfl, rfl⟩ := h00
    have hmem : ∀ xy ∈ quadCells, xy.1 < 8 ∧ xy.2 < 8 ∧ (xy.1, xy.2) ≠ (0, 0) := by
      decide
    have hpres := foldl_preserve quadCells (initGrid, pcgNew seed) 0 0
      (by omega) (by omega) hmem
    unfold Grid.generate
    refine Or.inl ⟨Direction.Up, some .Red, some .Yellow, some .Blue, some .Green,
      ?_, ?_, ?_, ?_⟩
    · rw [hpres 0 0 (by simp [orbitCells])]
      show Grid.gread initGrid 0 0 = Node.Arrow (some Color.Red) Direction.Up
      decide
    · rw [hpres 15 0 (by simp [orbitCells])]
      show Grid.gread initGrid 15 0 =
        Node.Arrow (some Color.Yellow) Direction.Up.counter_clockwise
      decide
    · rw [hpres 0 15 (by simp [orbitCells])]
      show Grid.gread initGrid 0 15 =
        Node.Arrow (some Color.Blue) Direction.Up.clockwise
      decide
    · rw [hpres 15 15 (by simp [orbitCells])]
      show Grid.gread initGrid 15 15 =
        Node.Arrow (some Color.Green) Direction.Up.opposite
      decide
  · have hin : (x, y) ∈ quadCells := by
      simp only [quadCells, List.mem_filter, List.mem_flatMap, List.mem_map,
        List.mem_range]
      constructor
      · exact ⟨y, hy, x, hx, rfl⟩
      · by_cases hx0 : x = 0
        · subst hx0
          have hy0 : y ≠ 0 := fun h => h00 ⟨rfl, h⟩
          simp [hy0]
        · simp [hx0]
    obtain ⟨l₁, l₂, hdecomp⟩ := List.append_of_mem hin
    have hnodup : quadCells.Nodup := by decide
    have hball : ∀ xy ∈ quadCells, xy.1 < 8 ∧ xy.2 < 8 := by decide
    rw [hdecomp] at hnodup
    have hnotin : (x, y) ∉ l₂ :=
      (List.nodup_cons.mp hnodup.of_append_right).1
    have hmem2 : ∀ xy ∈ l₂, xy.1 < 8 ∧ xy.2 < 8 ∧ (xy.1, xy.2) ≠ (x, y) := by
      intro xy hxy
      have hq : xy ∈ quadCells := by
        rw [hdecomp]
        exact List.mem_append_right _ (List.mem_cons_of_mem _ hxy)
      refine ⟨(hball xy hq).1, (hball xy hq).2, ?_⟩
      intro he
      apply hnotin
      have hxyeq : xy = (x, y) := he
      exact hxyeq ▸ hxy
    unfold Grid.generate
    rw [hdecomp, List.foldl_append, List.foldl_cons]
    have horb := genStep_orbit (l₁.foldl genStep (initGrid, pcgNew seed)) x y hx hy
    have hpres := foldl_preserve l₂
      (genStep (l₁.foldl genStep (initGrid, pcgNew seed)) (x, y)) x y hx hy hmem2
    rcases horb with ⟨d, a₁, a₂, a₃, a₄, e1, e2, e3, e4⟩ | ⟨w1, w2, w3, w4⟩
    · refine Or.inl ⟨d, a₁, a₂, a₃, a₄, ?_, ?_, ?_, ?_⟩
      · rw [hpres y x (by simp [orbitCells])]
        exact e1
      · rw [hpres (15 - x) y (by simp [orbitCells])]
        exact e2
      · rw [hpres x (15 - y) (by simp [orbitCells])]
        exact e3
      · rw [hpres (15 - y) (15 - x) (by simp [orbitCells])]
        exact e4
    · refine Or.inr ⟨?_, ?_, ?_, ?_⟩
      · rw [hpres y x (by simp [orbitCells])]
        exact w1
      · rw [hpres (15 - x) y (by simp [orbitCells])]
        exact w2
      · rw [hpres x (15 - y) (by simp [orbitCells])]
        exact w3
      · rw [hpres (15 - y) (15 - x) (by simp [orbitCells])]
        exact w4

/-- Witness for C8 (amended): the orbit property holds concretely at seed 0,
quadrant cell (1, 0). -/
theorem c8_orbit_symmetry_witness :
    (1 : Nat) < 8 ∧ (0 : Nat) < 8 ∧ rotOrbit (Grid.generate 0) 1 0 :=
  ⟨by decide, by decide, c8_orbit_symmetry 0 1 0 (by decide) (by decide)⟩

set_option maxRecDepth 10000 in
/-- Claim C8 counterexample: the claim's symmetry is stated at the mirror
POSITIONS `(15-x, y)`, `(x, 15-y)`, `(15-y, 15-x)`, i.e. at row/column
pairs `[y][15-x]`, `[15-y][x]`, `[15-x][15-y]`, but the code writes the
rotated arrows at `[15-x][y]`, `[x][15-y]`, `[15-y][15-x]` (transposed
orbit).  At seed 0 and position `(1, 0)` the base cell `[0][1]` holds an
arrow pointing Down, and the claim's three mirror positions hold arrows
pointing Up, Down and Right — not a permutation of the rotated variants
counter-clockwise/clockwise/opposite of Down (which are Right, Left, Up),
so the claimed multiset is not direction-rotation-consistent there. -/
theorem c8_counterexample :
    Grid.gread (Grid.generate 0) 0 1 = Node.Arrow none Direction.Down ∧
    Grid.gread (Grid.generate 0) 0 14 = Node.Arrow none Direction.Up ∧
    Grid.gread (Grid.generate 0) 15 1 = Node.Arrow none Direction.Down ∧
    Grid.gread (Grid.generate 0) 14 15 = Node.Arrow none Direction.Right ∧
    ¬ List.Perm [Direction.Up, Direction.Down, Direction.Right]
        [Direction.Down.counter_clockwise, Direction.Down.clockwise,
          Direction.Down.opposite] :=
  ⟨by decide, by decide, by decide, by decide, by decide⟩

end TugOfOrb
